import Mathlib

/-!
Verification of the MCP task-distribution core of auto-claude-code.

Shallow embedding of the Go sources:
  - internal/mcp/protocol.go   (protocol handler, tool dispatch)
  - internal/mcp/transport.go  (task manager: queue, workers, cancellation)
  - internal/mcp/worktree_manager.go (worktree resource pool)

Conventions used throughout:
  - Go maps are modelled as association lists with `fetch` / `upsert` /
    `removeKey`.
  - Go `time.Time` / `time.Now()` is modelled by a natural-number clock held in
    the state; every operation ticks the clock by one, so every observed `now`
    is strictly positive and the Go zero time corresponds to `0`
    (`t.IsZero()` becomes `t = 0`).  Durations are in nanoseconds as in Go.
  - External effects (filesystem, git commands, the Claude Code executor) are
    modelled by boolean/value oracles passed to the step that performs them.
  - A Go `select` with several ready cases chooses uniformly at random; this
    nondeterminism is modelled by an explicit `pick` argument (used only when
    more than one case is ready) or by leaving both transitions enabled in the
    step relation.
-/

namespace ACC

/-! ### Association-list model of Go maps -/

/-- Go map read `m[k]` (`none` plays the role of "not present"). -/
def fetch {α : Type} (k : String) : List (String × α) → Option α
  | [] => none
  | (k', v') :: rest => if k' = k then some v' else fetch k rest

/-- Go map assignment `m[k] = v`: replace the binding if present, else add it. -/
def upsert {α : Type} (k : String) (v : α) : List (String × α) → List (String × α)
  | [] => [(k, v)]
  | (k', v') :: rest => if k' = k then (k, v) :: rest else (k', v') :: upsert k v rest

/-- Go `delete(m, k)`. -/
def removeKey {α : Type} (k : String) : List (String × α) → List (String × α)
  | [] => []
  | (k', v') :: rest => if k' = k then removeKey k rest else (k', v') :: removeKey k rest

/-! ### internal/errors: error codes used by the mcp package -/

/-- The apperrors error codes reachable from the modelled operations. -/
inductive ErrorCode
  | taskNotSupported
  | taskNotFound
  | taskCancelled
  | instanceFailed
  | worktreeFailed
  | worktreeNotFound
  | mcpProtocolError
  | invalidPath
  | pathConversion
  | claudeCodeFailed
  | gitOperation
deriving Repr, DecidableEq

/-! ### protocol.go: protocol data model -/

/-- protocol.go: the single supported MCP protocol version. -/
def MCPVersion : String := "2024-11-05"

/-- protocol.go (comment on TaskStatus.Status and the list_tasks enum):
the task status domain of the implementation. -/
def taskStatusDomain : List String :=
  ["pending", "running", "completed", "failed", "cancelled"]

/-- protocol.go TaskRequest.  `timeout` is a Go `time.Duration` in nanoseconds
(0 = unset). -/
structure TaskRequest where
  id : String := ""
  type : String := ""
  projectPath : String := ""
  command : String := ""
  args : List String := []
  priority : Int := 0
  timeout : Nat := 0
deriving Repr, DecidableEq

/-- protocol.go TaskStatus.  `error` records the code of the Go error string
(`none` = empty).  `result` is the opaque result payload map.  Times are model
clock values, `0` being Go's zero `time.Time`. -/
structure TaskStatus where
  id : String := ""
  status : String := ""
  progress : ℚ := 0
  message : String := ""
  result : List (String × String) := []
  error : Option ErrorCode := none
  startTime : Nat := 0
  endTime : Nat := 0
  worktreeID : String := ""
deriving Repr, DecidableEq

/-! ### worktree_manager.go: the worktree resource pool -/

/-- interfaces.go WorktreeInfo.  Timestamps are model clock values (the Go code
stores RFC3339 strings and parses them back; formatting round-trips, so plain
numbers are an equivalent model). -/
structure WorktreeInfo where
  id : String := ""
  projectPath : String := ""
  wslPath : String := ""
  branch : String := ""
  createdAt : Nat := 0
  lastUsed : Nat := 0
  status : String := ""
deriving Repr, DecidableEq

/-- The mutable state of worktreeManager: the `worktrees` map plus the model
clock. -/
structure WMState where
  worktrees : List (String × WorktreeInfo) := []
  maxWorktrees : Nat
  clock : Nat := 0
deriving Repr, DecidableEq

/-- Two hours in nanoseconds: the idle worktree TTL (worktree_manager.go
cleanupIdleWorktrees). -/
def worktreeIdleTTL : Nat := 2 * 3600 * 1000000000

/-- worktree_manager.go cleanupIdleWorktrees: delete every `idle` entry whose
`lastUsed` is strictly before `now - 2h`.  `removeOk id` models whether
`os.RemoveAll` succeeds; on failure the entry is kept (`continue`). -/
def cleanupIdleWorktrees (wm : WMState) (now : Nat) (removeOk : String → Bool) : WMState :=
  let cutoff := now - worktreeIdleTTL
  { wm with worktrees := wm.worktrees.filter (fun p =>
      ! (decide (p.2.status = "idle") && decide (p.2.lastUsed < cutoff) && removeOk p.1)) }

/-- worktree_manager.go CreateWorktree line 146: WSL path of the worktree
directory: "/mnt/" + lower-cased first byte + the path from byte 2 on with
every backslash flipped to a slash (strings.ReplaceAll).  Modelled at the
character level; the paths involved are ASCII, where Go's byte indexing and
character indexing agree. -/
def toWSLPath (worktreePath : String) : String :=
  "/mnt/" ++ String.mk [(worktreePath.data.headD ' ').toLower]
    ++ String.mk ((worktreePath.data.drop 2).map (fun c => if c = '\\' then '/' else c))

inductive CreateWorktreeResult
  | ok (wt : WorktreeInfo)
  | poolExhausted
  | createFailed
deriving Repr, DecidableEq

/-- worktree_manager.go CreateWorktree.  At capacity it first runs
cleanupIdleWorktrees, re-checks, and fails with the pool-exhausted error
("已达到最大worktree数量限制") if still full.  Oracles: `isGit` models
isGitRepository(projectPath); `opOk` the success of copyDirectory /
createGitWorktree; `branchRes` the result of getCurrentBranch (`none` = error);
`removeOk` feeds the eviction attempt. -/
def createWorktree (wm : WMState) (baseDir projectPath : String) (isGit opOk : Bool)
    (branchRes : Option String) (removeOk : String → Bool) :
    CreateWorktreeResult × WMState :=
  let now := wm.clock + 1
  let wm1 := if wm.maxWorktrees ≤ wm.worktrees.length
             then cleanupIdleWorktrees wm now removeOk else wm
  if wm.maxWorktrees ≤ wm1.worktrees.length then
    (.poolExhausted, { wm1 with clock := now })
  else if opOk = false then
    (.createFailed, { wm1 with clock := now })
  else
    let worktreeID := "wt_" ++ toString now
    let worktreePath := baseDir ++ "/" ++ worktreeID
    let wt : WorktreeInfo :=
      { id := worktreeID
        projectPath := projectPath
        wslPath := toWSLPath worktreePath
        branch := if isGit then branchRes.getD "main" else "main"
        createdAt := now
        lastUsed := now
        status := "active" }
    (.ok wt, { wm1 with worktrees := upsert worktreeID wt wm1.worktrees, clock := now })

inductive DeleteWorktreeResult
  | ok
  | notFound
  | removeFailed
deriving Repr, DecidableEq

/-- worktree_manager.go DeleteWorktree.  A git `worktree remove` failure is only
logged; `rmOk` models `os.RemoveAll`, whose failure aborts without deleting the
entry. -/
def deleteWorktree (wm : WMState) (worktreeID : String) (rmOk : Bool) :
    DeleteWorktreeResult × WMState :=
  let now := wm.clock + 1
  match fetch worktreeID wm.worktrees with
  | none => (.notFound, { wm with clock := now })
  | some _ =>
    if rmOk = false then (.removeFailed, { wm with clock := now })
    else (.ok, { wm with worktrees := removeKey worktreeID wm.worktrees, clock := now })

/-- worktree_manager.go GetWorktree: refreshes `lastUsed` and returns a copy. -/
def getWorktree (wm : WMState) (worktreeID : String) :
    Except ErrorCode WorktreeInfo × WMState :=
  let now := wm.clock + 1
  match fetch worktreeID wm.worktrees with
  | none => (.error .worktreeNotFound, { wm with clock := now })
  | some wt =>
    let wt' := { wt with lastUsed := now }
    (.ok wt', { wm with worktrees := upsert worktreeID wt' wm.worktrees, clock := now })

/-- worktree_manager.go CleanupWorktrees: the explicit sweep. -/
def cleanupWorktrees (wm : WMState) (removeOk : String → Bool) : WMState :=
  { cleanupIdleWorktrees wm (wm.clock + 1) removeOk with clock := wm.clock + 1 }

/-! ### transport.go: the task manager -/

/-- One entry of the fixed worker pool (taskWorker).  `ctxCancelled` models the
worker's per-worker context `w.ctx` (created from the manager context in Start
and cancelled by CancelTask); `phase` models the dequeue loop position together
with `currentTask`; `exited` records that `run()` has returned. -/
inductive WorkerPhase
  | looping
  | executing (req : TaskRequest)
deriving Repr, DecidableEq

structure Worker where
  wid : Nat
  ctxCancelled : Bool := false
  phase : WorkerPhase := .looping
  exited : Bool := false
deriving Repr, DecidableEq

/-- transport.go taskWorker.currentTask as an ID (the Go field is a pointer to
the task's canonical status). -/
def Worker.currentTaskId (w : Worker) : Option String :=
  match w.phase with
  | .looping => none
  | .executing req => some req.id

/-- The mutable state of taskManager.  `usedIds` is ghost state recording every
task ID ever successfully registered; it backs the spec invariant "ID is
immutable and globally unique" (the Go code generates IDs from `UnixNano`,
which is strictly monotone). -/
structure TMState where
  tasks : List (String × TaskStatus) := []
  queue : List TaskRequest := []
  queueMax : Nat
  workers : List Worker := []
  clock : Nat := 0
  usedIds : List String := []
deriving Repr, DecidableEq

/-- Thirty minutes in nanoseconds: the hard default timeout in SubmitTask. -/
def thirtyMinutes : Nat := 30 * 60 * 1000000000

/-- The ID SubmitTask will give the request ("task_<UnixNano>" when absent). -/
def effectiveId (tm : TMState) (req : TaskRequest) : String :=
  if req.id = "" then "task_" ++ toString (tm.clock + 1) else req.id

/-- transport.go SubmitTask lines 413-425: generate an ID when absent
("task_<UnixNano>") and apply the configured default timeout (or the
hard-coded 30 minutes) when unset. -/
def normalizeRequest (tm : TMState) (cfgTimeout : Option Nat) (req : TaskRequest) :
    TaskRequest :=
  let req1 := if req.id = "" then { req with id := "task_" ++ toString (tm.clock + 1) }
              else req
  if req1.timeout = 0 then { req1 with timeout := cfgTimeout.getD thirtyMinutes } else req1

/-- transport.go SubmitTask lines 427-434: the initial pending snapshot. -/
def pendingSnapshot (id : String) : TaskStatus :=
  { id := id, status := "pending", progress := 0, message := "任务已提交，等待执行" }

inductive SubmitResult
  | ok (status : TaskStatus)
  | ctxErr
  | queueFull
deriving Repr, DecidableEq

/-- transport.go SubmitTask.  The three-way `select` is modelled literally: the
send case is ready iff the queue has room, the ctx case iff the caller's
context is cancelled, and `pick` resolves the random choice when both are
ready; `default` (queue full) fires only when neither is ready.  The failure
branches delete the just-registered entry. -/
def submitTask (tm : TMState) (ctxCancelled pick : Bool) (cfgTimeout : Option Nat)
    (req : TaskRequest) : SubmitResult × TMState :=
  let now := tm.clock + 1
  let req2 := normalizeRequest tm cfgTimeout req
  let st := pendingSnapshot req2.id
  let tasks1 := upsert req2.id st tm.tasks
  if tm.queue.length < tm.queueMax ∧ (ctxCancelled = false ∨ pick = true) then
    (.ok st, { tm with tasks := tasks1, queue := tm.queue ++ [req2], clock := now,
                       usedIds := req2.id :: tm.usedIds })
  else if ctxCancelled = true then
    (.ctxErr, { tm with tasks := removeKey req2.id tasks1, clock := now })
  else
    (.queueFull, { tm with tasks := removeKey req2.id tasks1, clock := now })

/-- transport.go GetTaskStatus: a copy of the entry or ErrTaskNotFound. -/
def getTaskStatus (tm : TMState) (taskID : String) : Except ErrorCode TaskStatus :=
  match fetch taskID tm.tasks with
  | none => .error .taskNotFound
  | some st => .ok st

/-- transport.go CancelTask line 489: the statuses treated as already
terminal (note: no "timeout" case exists). -/
def isTerminalCheck (st : String) : Bool :=
  decide (st = "completed" ∨ st = "failed" ∨ st = "cancelled")

inductive CancelResult
  | ok
  | notFound
  | alreadyTerminal
deriving Repr, DecidableEq

/-- transport.go CancelTask: mark the entry cancelled with an end time, then
cancel the per-worker context of any worker currently executing the task. -/
def cancelTask (tm : TMState) (taskID : String) : CancelResult × TMState :=
  let now := tm.clock + 1
  match fetch taskID tm.tasks with
  | none => (.notFound, { tm with clock := now })
  | some st =>
    if isTerminalCheck st.status then (.alreadyTerminal, { tm with clock := now })
    else
      let st' := { st with status := "cancelled", message := "任务已取消", endTime := now }
      let workers' := tm.workers.map (fun w =>
        if w.currentTaskId = some taskID then { w with ctxCancelled := true } else w)
      (.ok, { tm with tasks := upsert taskID st' tm.tasks, workers := workers', clock := now })

/-- transport.go ListTasks: value copies of every entry. -/
def listTasks (tm : TMState) : List TaskStatus := tm.tasks.map Prod.snd

/-- Twenty-four hours in nanoseconds: the terminal-task retention window. -/
def taskRetention : Nat := 24 * 3600 * 1000000000

/-- transport.go cleanupCompletedTasks: the reaper deletes terminal entries
whose end time is set and older than 24h. -/
def cleanupCompletedTasks (tm : TMState) : TMState :=
  let now := tm.clock + 1
  let cutoff := now - taskRetention
  { tm with tasks := tm.tasks.filter (fun p =>
      ! (isTerminalCheck p.2.status && decide (p.2.endTime ≠ 0)
          && decide (p.2.endTime < cutoff))), clock := now }

/-! ### The combined system and the worker steps -/

/-- The task manager together with the worktree manager it calls into. -/
structure SysState where
  tm : TMState
  wm : WMState
deriving Repr, DecidableEq

/-- transport.go run (lines 604-613) + the head of executeTask (lines 616-646):
dequeue one request, re-check the task's canonical status under the lock (skip
execution if the entry is gone or already cancelled), otherwise mark it
running and register it as the worker's current task.  The `currentTask`
registration directly follows the `running` update in the source and is merged
into the same atomic step. -/
def workerStart (s : SysState) (i : Nat) : SysState :=
  match s.tm.queue with
  | [] => s
  | req :: rest =>
    match s.tm.workers.get? i with
    | none => s
    | some w =>
      let now := s.tm.clock + 1
      match fetch req.id s.tm.tasks with
      | none => { s with tm := { s.tm with queue := rest, clock := now } }
      | some st =>
        if st.status = "cancelled" then
          { s with tm := { s.tm with queue := rest, clock := now } }
        else
          let st' := { st with status := "running", message := "任务正在执行",
                               startTime := now, progress := (1 : ℚ)/10 }
          let w' := { w with phase := .executing req }
          { s with tm := { s.tm with tasks := upsert req.id st' s.tm.tasks,
                                     workers := s.tm.workers.set i w',
                                     queue := rest, clock := now } }

/-- transport.go executeTask lines 662-673: the final status update.  It sets
"failed"/"completed" WITHOUT re-checking whether the task was cancelled while
it ran. -/
def finishStatus (upd : TaskStatus → TaskStatus) (err : Option ErrorCode) (now : Nat)
    (st : TaskStatus) : TaskStatus :=
  match err with
  | some e => { upd st with status := "failed", error := some e,
                            message := "任务执行失败", endTime := now }
  | none => { upd st with status := "completed", message := "任务执行成功",
                          progress := 1, endTime := now }

/-- The task-manager side of the tail of executeTask: write the final status
through the task table (the Go code writes through the status pointer captured
at pickup; the entry, when still present, is that same object) and clear the
worker's current task. -/
def workerFinishTM (tm : TMState) (i : Nat) (w : Worker) (req : TaskRequest)
    (upd : TaskStatus → TaskStatus) (err : Option ErrorCode) : TMState :=
  let now := tm.clock + 1
  let tasks' := match fetch req.id tm.tasks with
    | none => tm.tasks
    | some st => upsert req.id (finishStatus upd err now st) tm.tasks
  { tm with tasks := tasks', workers := tm.workers.set i { w with phase := .looping },
            clock := now }

/-- transport.go executeClaudeCodeTask (lines 688-751) together with the type
switch of executeTask (lines 654-659): yields the accumulated status-field
writes, the Go error result, and the worktree-pool state after the stage
effects.  Oracles: `pathOk`/`convOk` for the path converter, `wslPath` for its
output, `isGit`/`opOk`/`branchRes`/`removeOk` for CreateWorktree, `claudeOk`
for wslBridge.StartClaudeCode (which receives neither the task context nor its
deadline), `delRmOk` for the compensating DeleteWorktree. -/
def workerFinishBody (wm : WMState) (req : TaskRequest) (pathOk convOk : Bool)
    (wslPath : String) (isGit opOk : Bool) (branchRes : Option String)
    (claudeOk delRmOk : Bool) (removeOk : String → Bool) (baseDir : String) :
    (TaskStatus → TaskStatus) × Option ErrorCode × WMState :=
  if req.type ≠ "claude_code" then (fun st => st, some .taskNotSupported, wm)
  else if pathOk = false then (fun st => st, some .invalidPath, wm)
  else if convOk = false then
    (fun st => { st with progress := (2:ℚ)/10, message := "正在转换路径" },
     some .pathConversion, wm)
  else
    let upTo04 : TaskStatus → TaskStatus := fun st =>
      { st with progress := (4:ℚ)/10, message := "正在创建工作树" }
    match createWorktree wm baseDir req.projectPath isGit opOk branchRes removeOk with
    | (.poolExhausted, wm') => (upTo04, some .worktreeFailed, wm')
    | (.createFailed, wm') => (upTo04, some .worktreeFailed, wm')
    | (.ok wt, wm') =>
      if claudeOk = false then
        (fun st => { st with worktreeID := wt.id, progress := (6:ℚ)/10,
                             message := "正在启动Claude Code" },
         some .claudeCodeFailed, (deleteWorktree wm' wt.id delRmOk).2)
      else
        (fun st => { st with worktreeID := wt.id, progress := (9:ℚ)/10,
                             message := "Claude Code执行完成",
                             result := [("wslPath", wslPath), ("worktreeId", wt.id),
                                        ("projectPath", req.projectPath)] },
         none, wm')

/-- The tail of a worker's executeTask call: run the executor body
(`workerFinishBody`) and write the final status (`workerFinishTM`).  The final
update sets "failed"/"completed" WITHOUT re-checking whether the task was
cancelled while it ran. -/
def workerFinish (s : SysState) (i : Nat) (pathOk convOk : Bool) (wslPath : String)
    (isGit opOk : Bool) (branchRes : Option String) (claudeOk delRmOk : Bool)
    (removeOk : String → Bool) (baseDir : String) : SysState :=
  match s.tm.workers.get? i with
  | none => s
  | some w =>
    match w.phase with
    | .looping => s
    | .executing req =>
      let body := workerFinishBody s.wm req pathOk convOk wslPath isGit opOk branchRes
                    claudeOk delRmOk removeOk baseDir
      { tm := workerFinishTM s.tm i w req body.1 body.2.1, wm := body.2.2 }

/-- transport.go run lines 605-608: the ctx.Done branch of the worker loop; the
goroutine returns and never selects again. -/
def workerExit (s : SysState) (i : Nat) : SysState :=
  match s.tm.workers.get? i with
  | none => s
  | some w =>
    { s with tm := { s.tm with workers := s.tm.workers.set i { w with exited := true } } }

/-- One interleaved step of the system.  Worker steps carry the loop conditions
as hypotheses; `wstart` deliberately has NO hypothesis on `ctxCancelled`,
because a Go `select` with both the ctx case and the queue case ready chooses
between them at random.  `submit` requires the effective ID to be fresh,
backing the spec invariant that task IDs are globally unique. -/
inductive Step : SysState → SysState → Prop
  | submit (s : SysState) (ctxC pick : Bool) (cfgTimeout : Option Nat) (req : TaskRequest)
      (hfresh : effectiveId s.tm req ∉ s.tm.usedIds) :
      Step s { s with tm := (submitTask s.tm ctxC pick cfgTimeout req).2 }
  | cancel (s : SysState) (taskID : String) :
      Step s { s with tm := (cancelTask s.tm taskID).2 }
  | wstart (s : SysState) (i : Nat) (w : Worker)
      (hw : s.tm.workers.get? i = some w) (hex : w.exited = false)
      (hph : w.phase = .looping) :
      Step s (workerStart s i)
  | wfinish (s : SysState) (i : Nat) (w : Worker) (req : TaskRequest)
      (hw : s.tm.workers.get? i = some w) (hex : w.exited = false)
      (hph : w.phase = .executing req)
      (pathOk convOk : Bool) (wslPath : String) (isGit opOk : Bool)
      (branchRes : Option String) (claudeOk delRmOk : Bool)
      (removeOk : String → Bool) (baseDir : String) :
      Step s (workerFinish s i pathOk convOk wslPath isGit opOk branchRes
                claudeOk delRmOk removeOk baseDir)
  | wexit (s : SysState) (i : Nat) (w : Worker)
      (hw : s.tm.workers.get? i = some w) (hex : w.exited = false)
      (hph : w.phase = .looping) (hc : w.ctxCancelled = true) :
      Step s (workerExit s i)
  | reap (s : SysState) :
      Step s { s with tm := cleanupCompletedTasks s.tm }
  | sweep (s : SysState) (removeOk : String → Bool) :
      Step s { s with wm := cleanupWorktrees s.wm removeOk }

/-- taskManager/worktreeManager state right after Start on a fresh install:
empty task table, empty queue, `workerCount` live workers, empty pool. -/
def initSys (queueMax workerCount maxWorktrees : Nat) : SysState :=
  { tm := { queueMax := queueMax,
            workers := (List.range workerCount).map (fun i => { wid := i }) },
    wm := { maxWorktrees := maxWorktrees } }

/-- States reachable from some fresh start. -/
inductive Reachable : SysState → Prop
  | init (queueMax workerCount maxWorktrees : Nat) :
      Reachable (initSys queueMax workerCount maxWorktrees)
  | step (s s' : SysState) (h : Reachable s) (hs : Step s s') : Reachable s'

/-- Multi-step reachability from a given state. -/
inductive StepsFrom (s : SysState) : SysState → Prop
  | refl : StepsFrom s s
  | tail (s' s'' : SysState) (h : StepsFrom s s') (hs : Step s' s'') : StepsFrom s s''

/-! ### protocol.go: the protocol handler -/

structure ServerInfo where
  name : String
  version : String
deriving Repr, DecidableEq

structure ToolsCapability where
  listChanged : Bool := false
deriving Repr, DecidableEq

/-- protocol.go MCPCapabilities, restricted to the fields the handler sets
(tools + logging). -/
structure MCPCapabilities where
  tools : Option ToolsCapability := none
  logging : Bool := false
deriving Repr, DecidableEq

structure InitializeRequest where
  protocolVersion : String
  clientName : String := ""
  clientVersion : String := ""
deriving Repr, DecidableEq

structure InitializeResult where
  protocolVersion : String
  capabilities : MCPCapabilities
  serverInfo : ServerInfo
deriving Repr, DecidableEq

/-- protocol.go NewMCPProtocolHandler: the fixed server identity. -/
def handlerServerInfo : ServerInfo := { name := "auto-claude-code-mcp", version := "1.0.0" }

/-- protocol.go NewMCPProtocolHandler: the fixed capability set. -/
def handlerCapabilities : MCPCapabilities :=
  { tools := some { listChanged := true }, logging := true }

/-- protocol.go Initialize: reject any protocol version other than MCPVersion
with ErrMCPProtocolError ("不支持的协议版本"), else return version,
capabilities and identity.  The method reads only immutable handler fields. -/
def mcpInitialize (req : InitializeRequest) : Except ErrorCode InitializeResult :=
  if req.protocolVersion ≠ MCPVersion then .error .mcpProtocolError
  else .ok { protocolVersion := MCPVersion
             capabilities := handlerCapabilities
             serverInfo := handlerServerInfo }

/-- Initialize as the dispatcher invokes it, with the system state threaded
through to express that no state mutation occurs. -/
def initializeOn (s : SysState) (req : InitializeRequest) :
    (Except ErrorCode InitializeResult) × SysState :=
  (mcpInitialize req, s)

/-- A JSON value as seen through Go's `map[string]interface{}` after
`encoding/json` decoding: strings, float64 numbers, booleans, arrays, nulls. -/
inductive JSONValue
  | str (s : String)
  | num (q : ℚ)
  | boolean (b : Bool)
  | arr (xs : List JSONValue)
  | null
deriving Repr

/-- The Go type assertion `v.(string)`. -/
def JSONValue.asString : Option JSONValue → Option String
  | some (.str s) => some s
  | _ => none

/-- The Go type assertion `v.(float64)`. -/
def JSONValue.asNum : Option JSONValue → Option ℚ
  | some (.num q) => some q
  | _ => none

/-- The Go type assertion `v.([]interface{})`. -/
def JSONValue.asArr : Option JSONValue → Option (List JSONValue)
  | some (.arr xs) => some xs
  | _ => none

/-- Go `int(f)` on a float64: truncation toward zero. -/
def truncToInt (q : ℚ) : Int := q.num / (q.den : Int)

structure ToolContent where
  type : String
  text : String
deriving Repr, DecidableEq

/-- protocol.go CallToolResult. -/
structure CallToolResult where
  content : List ToolContent
  isError : Bool := false
deriving Repr, DecidableEq

/-- Stands in for json.MarshalIndent on a task status; the modelled claims
depend only on a human-readable payload being produced, not on the JSON
text itself. -/
def renderTaskStatus (st : TaskStatus) : String :=
  "id=" ++ st.id ++ " status=" ++ st.status ++ " message=" ++ st.message

/-- Stands in for json.MarshalIndent on a task list. -/
def renderTaskList (sts : List TaskStatus) : String :=
  String.intercalate "\n" (sts.map renderTaskStatus)

/-- The `%v` rendering of the Go errors surfaced through tool-call texts. -/
def errText : ErrorCode → String
  | .taskNotSupported => "任务队列已满"
  | .taskNotFound => "任务不存在"
  | .taskCancelled => "任务已完成或已取消"
  | .instanceFailed => "没有活跃的任务工作器"
  | .worktreeFailed => "创建工作树失败"
  | .worktreeNotFound => "Worktree不存在"
  | .mcpProtocolError => "不支持的协议版本"
  | .invalidPath => "项目路径验证失败"
  | .pathConversion => "路径转换失败"
  | .claudeCodeFailed => "Claude Code启动失败"
  | .gitOperation => "Git操作失败"

/-- protocol.go handleExecuteClaudeCode: validate `projectPath`, build the
TaskRequest from the optional arguments, submit it; every failure is a soft
result (IsError true) paired with a nil Go error.  `parseDur` models
time.ParseDuration; `ctxC`/`pick`/`cfgTimeout` are SubmitTask's oracles. -/
def handleExecuteClaudeCode (s : SysState) (args : List (String × JSONValue))
    (parseDur : String → Option Nat) (ctxC pick : Bool) (cfgTimeout : Option Nat) :
    (CallToolResult × Option ErrorCode) × SysState :=
  match JSONValue.asString (fetch "projectPath" args) with
  | none =>
    (({ content := [{ type := "text", text := "缺少必需参数: projectPath" }],
        isError := true }, none), s)
  | some projectPath =>
    if projectPath = "" then
      (({ content := [{ type := "text", text := "缺少必需参数: projectPath" }],
          isError := true }, none), s)
    else
      let req0 : TaskRequest := { type := "claude_code", projectPath := projectPath,
                                  priority := 2 }
      let req1 := match JSONValue.asString (fetch "command" args) with
        | some command => { req0 with command := command }
        | none => req0
      let req2 := match JSONValue.asArr (fetch "args" args) with
        | some xs => { req1 with args := xs.filterMap (fun x =>
            match x with
            | .str s => some s
            | _ => none) }
        | none => req1
      let req3 := match JSONValue.asNum (fetch "priority" args) with
        | some q => { req2 with priority := truncToInt q }
        | none => req2
      let req4 := match JSONValue.asString (fetch "timeout" args) with
        | some t =>
          match parseDur t with
          | some d => { req3 with timeout := d }
          | none => req3
        | none => req3
      match submitTask s.tm ctxC pick cfgTimeout req4 with
      | (.ok st, tm') =>
        (({ content := [{ type := "text",
                          text := "任务已提交:\n" ++ renderTaskStatus st }] }, none),
         { s with tm := tm' })
      | (.ctxErr, tm') =>
        (({ content := [{ type := "text", text := "任务提交失败: context canceled" }],
            isError := true }, none), { s with tm := tm' })
      | (.queueFull, tm') =>
        (({ content := [{ type := "text",
                          text := "任务提交失败: " ++ errText .taskNotSupported }],
            isError := true }, none), { s with tm := tm' })

/-- protocol.go handleGetTaskStatus. -/
def handleGetTaskStatus (s : SysState) (args : List (String × JSONValue)) :
    (CallToolResult × Option ErrorCode) × SysState :=
  match JSONValue.asString (fetch "taskId" args) with
  | none =>
    (({ content := [{ type := "text", text := "缺少必需参数: taskId" }],
        isError := true }, none), s)
  | some taskID =>
    if taskID = "" then
      (({ content := [{ type := "text", text := "缺少必需参数: taskId" }],
          isError := true }, none), s)
    else
      match getTaskStatus s.tm taskID with
      | .error e =>
        (({ content := [{ type := "text", text := "获取任务状态失败: " ++ errText e }],
            isError := true }, none), s)
      | .ok st =>
        (({ content := [{ type := "text", text := renderTaskStatus st }] }, none), s)

/-- protocol.go handleCancelTask. -/
def handleCancelTask (s : SysState) (args : List (String × JSONValue)) :
    (CallToolResult × Option ErrorCode) × SysState :=
  match JSONValue.asString (fetch "taskId" args) with
  | none =>
    (({ content := [{ type := "text", text := "缺少必需参数: taskId" }],
        isError := true }, none), s)
  | some taskID =>
    if taskID = "" then
      (({ content := [{ type := "text", text := "缺少必需参数: taskId" }],
          isError := true }, none), s)
    else
      match cancelTask s.tm taskID with
      | (.ok, tm') =>
        (({ content := [{ type := "text", text := "任务 " ++ taskID ++ " 已取消" }] },
          none), { s with tm := tm' })
      | (.notFound, tm') =>
        (({ content := [{ type := "text",
                          text := "取消任务失败: " ++ errText .taskNotFound }],
            isError := true }, none), { s with tm := tm' })
      | (.alreadyTerminal, tm') =>
        (({ content := [{ type := "text",
                          text := "取消任务失败: " ++ errText .taskCancelled }],
            isError := true }, none), { s with tm := tm' })

/-- protocol.go handleListTasks: list every task, optionally filtered by the
`status` argument; never an error. -/
def handleListTasks (s : SysState) (args : List (String × JSONValue)) :
    (CallToolResult × Option ErrorCode) × SysState :=
  let tasks := listTasks s.tm
  let tasks := match JSONValue.asString (fetch "status" args) with
    | some statusFilter =>
      if statusFilter ≠ "" then tasks.filter (fun t => t.status = statusFilter) else tasks
    | none => tasks
  (({ content := [{ type := "text", text := renderTaskList tasks }] }, none), s)

/-- protocol.go CallTool: dispatch on the tool name; an unknown name is a soft
error result ("未知工具"), not a Go error.  The second component of the result
pair is the Go `error` return value, which every branch leaves nil. -/
def callTool (s : SysState) (name : String) (args : List (String × JSONValue))
    (parseDur : String → Option Nat) (ctxC pick : Bool) (cfgTimeout : Option Nat) :
    (CallToolResult × Option ErrorCode) × SysState :=
  if name = "execute_claude_code" then
    handleExecuteClaudeCode s args parseDur ctxC pick cfgTimeout
  else if name = "get_task_status" then handleGetTaskStatus s args
  else if name = "cancel_task" then handleCancelTask s args
  else if name = "list_tasks" then handleListTasks s args
  else
    (({ content := [{ type := "text", text := "未知工具: " ++ name }],
        isError := true }, none), s)

/-! ### The worktree pool in isolation (its public API) -/

/-- One call of the WorktreeManager public API (worktree_manager.go). -/
inductive WMStep : WMState → WMState → Prop
  | create (wm : WMState) (baseDir projectPath : String) (isGit opOk : Bool)
      (branchRes : Option String) (removeOk : String → Bool) :
      WMStep wm (createWorktree wm baseDir projectPath isGit opOk branchRes removeOk).2
  | del (wm : WMState) (worktreeID : String) (rmOk : Bool) :
      WMStep wm (deleteWorktree wm worktreeID rmOk).2
  | get (wm : WMState) (worktreeID : String) :
      WMStep wm (getWorktree wm worktreeID).2
  | cleanup (wm : WMState) (removeOk : String → Bool) :
      WMStep wm (cleanupWorktrees wm removeOk)

/-- Pool states reachable from any within-bound inventory (in particular the
empty one built by NewWorktreeManager, or a post-scan inventory within the
bound). -/
inductive ReachableWM : WMState → Prop
  | init (wm : WMState) (h : wm.worktrees.length ≤ wm.maxWorktrees) : ReachableWM wm
  | step (wm wm' : WMState) (h : ReachableWM wm) (hs : WMStep wm wm') : ReachableWM wm'

/-! ### Invariant predicates -/

/-- The terminal statuses of the specification's state machine
(`pending → running → {completed | failed | cancelled | timeout}`). -/
def isTerminalStatus (st : String) : Prop :=
  st = "completed" ∨ st = "failed" ∨ st = "cancelled" ∨ st = "timeout"

instance (st : String) : Decidable (isTerminalStatus st) := by
  unfold isTerminalStatus
  infer_instance

/-- The inductive invariant of the task manager, established at start-up and
preserved by every step. -/
structure Inv (s : SysState) : Prop where
  tasksKeysNodup : (s.tm.tasks.map Prod.fst).Nodup
  statusInDomain : ∀ id st, fetch id s.tm.tasks = some st → st.status ∈ taskStatusDomain
  endTimeIff : ∀ id st, fetch id s.tm.tasks = some st →
      (isTerminalCheck st.status = true ↔ st.endTime ≠ 0)
  queueStatus : ∀ req ∈ s.tm.queue, fetch req.id s.tm.tasks = none ∨
      ∃ st, fetch req.id s.tm.tasks = some st ∧
        (st.status = "pending" ∨ st.status = "cancelled")
  execStatus : ∀ i w req, s.tm.workers.get? i = some w → w.phase = .executing req →
      fetch req.id s.tm.tasks = none ∨
      ∃ st, fetch req.id s.tm.tasks = some st ∧
        (st.status = "running" ∨ st.status = "cancelled")
  usedTasks : ∀ id st, fetch id s.tm.tasks = some st → id ∈ s.tm.usedIds
  usedQueue : ∀ req ∈ s.tm.queue, req.id ∈ s.tm.usedIds
  usedExec : ∀ i w req, s.tm.workers.get? i = some w → w.phase = .executing req →
      req.id ∈ s.tm.usedIds
  queueNodup : (s.tm.queue.map TaskRequest.id).Nodup
  queueExecDisj : ∀ req ∈ s.tm.queue, ∀ i w req',
      s.tm.workers.get? i = some w → w.phase = .executing req' → req.id ≠ req'.id
  execExecDisj : ∀ i j wi wj ri rj, i ≠ j →
      s.tm.workers.get? i = some wi → s.tm.workers.get? j = some wj →
      wi.phase = .executing ri → wj.phase = .executing rj → ri.id ≠ rj.id
  exitedLooping : ∀ i w, s.tm.workers.get? i = some w → w.exited = true →
      w.phase = .looping

/-- A task that was cancelled while no worker was executing it: its entry (if
not reaped) stays "cancelled" and no worker ever picks it up. -/
def cancelledQuiescent (s : SysState) (t : String) : Prop :=
  t ∈ s.tm.usedIds ∧
  (fetch t s.tm.tasks = none ∨
    ∃ st, fetch t s.tm.tasks = some st ∧ st.status = "cancelled") ∧
  (∀ i w req, s.tm.workers.get? i = some w → w.phase = .executing req → req.id ≠ t)

/-- A required string argument that is absent, of the wrong dynamic type, or
empty — exactly the condition Go's `args[k].(string)` + `== ""` check
rejects. -/
def missingStringArg (args : List (String × JSONValue)) (key : String) : Prop :=
  JSONValue.asString (fetch key args) = none ∨
  JSONValue.asString (fetch key args) = some ""

/-- The tool names CallTool dispatches on. -/
def knownToolNames : List String :=
  ["execute_claude_code", "get_task_status", "cancel_task", "list_tasks"]

/-! ### Concrete runs (queue capacity 2, one worker, pool capacity 2) -/

/-- Fresh start used by the concrete runs below. -/
def sysA : SysState := initSys 2 1 2

def reqT1 : TaskRequest := { id := "t1", type := "claude_code", projectPath := "C:\\proj" }

def reqT2 : TaskRequest := { id := "t2", type := "claude_code", projectPath := "C:\\proj" }

/-- A claude_code request with a 1ns timeout: its deadline context expires
during the git worktree step. -/
def reqTiny : TaskRequest :=
  { id := "t3", type := "claude_code", projectPath := "C:\\proj", timeout := 1 }

/-- Run A (cancel while running): submit t1, worker picks it up, CancelTask
while the executor runs, executor returns the cancellation-induced error,
worker writes the final status. -/
def sA1 : SysState := { sysA with tm := (submitTask sysA.tm false true none reqT1).2 }

def sA2 : SysState := workerStart sA1 0

def sA3 : SysState := { sA2 with tm := (cancelTask sA2.tm "t1").2 }

def sA4 : SysState :=
  workerFinish sA3 0 true true "/mnt/c/proj" true false none true true (fun _ => true)
    "./worktrees"

/-- Run B (successful completion): submit t1, pick up, every stage succeeds. -/
def sB2 : SysState := workerStart sA1 0

def sB3 : SysState :=
  workerFinish sB2 0 true true "/mnt/c/proj" true true (some "main") true true
    (fun _ => true) "./worktrees"

/-- Run C (deadline exceeded): submit the 1ns-timeout task, pick up, the git
worktree step is killed by the expired deadline context. -/
def sC1 : SysState := { sysA with tm := (submitTask sysA.tm false true none reqTiny).2 }

def sC2 : SysState := workerStart sC1 0

def sC3 : SysState :=
  workerFinish sC2 0 true true "/mnt/c/proj" true false none true true (fun _ => true)
    "./worktrees"

/-- Run D (cancelled worker races the queue): submit t1 and t2, worker executes
t1, CancelTask t1 (cancelling the worker's run-loop context), the worker
finishes t1, and then — the ctx.Done and queue cases of its select being both
ready — dequeues t2 anyway. -/
def sD2 : SysState := { sA1 with tm := (submitTask sA1.tm false true none reqT2).2 }

def sD3 : SysState := workerStart sD2 0

def sD4 : SysState := { sD3 with tm := (cancelTask sD3.tm "t1").2 }

def sD5 : SysState :=
  workerFinish sD4 0 true true "/mnt/c/proj" true false none true true (fun _ => true)
    "./worktrees"

def sD6 : SysState := workerStart sD5 0

/-! ### Lemmas about the Go-map model -/

theorem fetch_upsert_self {α : Type} (k : String) (v : α) (m : List (String × α)) :
    fetch k (upsert k v m) = some v := by
  induction m with
  | nil => simp [upsert, fetch]
  | cons p rest ih =>
    obtain ⟨k', v'⟩ := p
    by_cases h : k' = k
    · simp [upsert, h, fetch]
    · simp [upsert, h, fetch, ih]

theorem fetch_upsert_ne {α : Type} (k k₀ : String) (v : α) (m : List (String × α))
    (h : k₀ ≠ k) : fetch k₀ (upsert k v m) = fetch k₀ m := by
  induction m with
  | nil => simp [upsert, fetch, Ne.symm h]
  | cons p rest ih =>
    obtain ⟨k', v'⟩ := p
    by_cases hk : k' = k
    · subst hk
      simp [upsert, fetch, Ne.symm h]
    · simp only [upsert, if_neg hk, fetch]
      by_cases hk0 : k' = k₀
      · simp [hk0]
      · simp [hk0, ih]

theorem fetch_removeKey_self {α : Type} (k : String) (m : List (String × α)) :
    fetch k (removeKey k m) = none := by
  induction m with
  | nil => simp [removeKey, fetch]
  | cons p rest ih =>
    obtain ⟨k', v'⟩ := p
    by_cases h : k' = k
    · simp only [removeKey, if_pos h]
      exact ih
    · simp [removeKey, h, fetch, ih]

theorem fetch_removeKey_ne {α : Type} (k k₀ : String) (m : List (String × α))
    (h : k₀ ≠ k) : fetch k₀ (removeKey k m) = fetch k₀ m := by
  induction m with
  | nil => simp [removeKey]
  | cons p rest ih =>
    obtain ⟨k', v'⟩ := p
    by_cases hk : k' = k
    · subst hk
      simp [removeKey, fetch, Ne.symm h, ih]
    · simp only [removeKey, if_neg hk, fetch]
      by_cases hk0 : k' = k₀
      · simp [hk0]
      · simp [hk0, ih]

theorem removeKey_upsert_fresh {α : Type} (k : String) (v : α) (m : List (String × α))
    (h : fetch k m = none) : removeKey k (upsert k v m) = m := by
  induction m with
  | nil => simp [upsert, removeKey]
  | cons p rest ih =>
    obtain ⟨k', v'⟩ := p
    by_cases hk : k' = k
    · rw [fetch, if_pos hk] at h
      exact absurd h (by simp)
    · rw [fetch, if_neg hk] at h
      simp [upsert, hk, removeKey, ih h]

theorem fetch_mem {α : Type} {m : List (String × α)} {k : String} {v : α}
    (h : fetch k m = some v) : (k, v) ∈ m := by
  induction m with
  | nil => exact absurd h (by simp [fetch])
  | cons p rest ih =>
    obtain ⟨k', v'⟩ := p
    by_cases hk : k' = k
    · subst hk
      rw [fetch, if_pos rfl] at h
      obtain rfl : v' = v := Option.some.inj h
      exact List.mem_cons_self _ _
    · rw [fetch, if_neg hk] at h
      exact List.mem_cons_of_mem _ (ih h)

theorem mem_upsert {α : Type} {k₀ : String} {v₀ : α} (k : String) (v : α)
    (m : List (String × α)) (h : (k₀, v₀) ∈ upsert k v m) :
    (k₀, v₀) = (k, v) ∨ (k₀, v₀) ∈ m := by
  induction m with
  | nil =>
    rw [upsert] at h
    exact Or.inl (List.mem_singleton.mp h)
  | cons p rest ih =>
    obtain ⟨k', v'⟩ := p
    by_cases hk : k' = k
    · subst hk
      rw [upsert, if_pos rfl] at h
      rcases List.mem_cons.mp h with h1 | h1
      · exact Or.inl h1
      · exact Or.inr (List.mem_cons_of_mem _ h1)
    · rw [upsert, if_neg hk] at h
      rcases List.mem_cons.mp h with h1 | h1
      · exact Or.inr (List.mem_cons.mpr (Or.inl h1))
      · rcases ih h1 with h2 | h2
        · exact Or.inl h2
        · exact Or.inr (List.mem_cons_of_mem _ h2)

theorem mem_removeKey {α : Type} {k₀ : String} {v₀ : α} (k : String)
    (m : List (String × α)) (h : (k₀, v₀) ∈ removeKey k m) : (k₀, v₀) ∈ m := by
  induction m with
  | nil =>
    rw [removeKey] at h
    exact absurd h (List.not_mem_nil _)
  | cons p rest ih =>
    obtain ⟨k', v'⟩ := p
    by_cases hk : k' = k
    · rw [removeKey, if_pos hk] at h
      exact List.mem_cons_of_mem _ (ih h)
    · rw [removeKey, if_neg hk] at h
      rcases List.mem_cons.mp h with h1 | h1
      · exact List.mem_cons.mpr (Or.inl h1)
      · exact List.mem_cons_of_mem _ (ih h1)

theorem length_removeKey_le {α : Type} (k : String) (m : List (String × α)) :
    (removeKey k m).length ≤ m.length := by
  induction m with
  | nil => simp [removeKey]
  | cons p rest ih =>
    obtain ⟨k', v'⟩ := p
    by_cases hk : k' = k
    · simp only [removeKey, if_pos hk, List.length_cons]
      exact Nat.le_succ_of_le ih
    · simp only [removeKey, if_neg hk, List.length_cons]
      exact Nat.succ_le_succ ih

theorem length_upsert_le {α : Type} (k : String) (v : α) (m : List (String × α)) :
    (upsert k v m).length ≤ m.length + 1 := by
  induction m with
  | nil => simp [upsert]
  | cons p rest ih =>
    obtain ⟨k', v'⟩ := p
    by_cases hk : k' = k
    · simp [upsert, hk]
    · simp only [upsert, if_neg hk, List.length_cons]
      exact Nat.succ_le_succ ih

theorem keys_upsert_nodup {α : Type} (k : String) (v : α) (m : List (String × α))
    (h : (m.map Prod.fst).Nodup) : ((upsert k v m).map Prod.fst).Nodup := by
  induction m with
  | nil => simp [upsert]
  | cons p rest ih =>
    obtain ⟨k', v'⟩ := p
    simp only [List.map_cons, List.nodup_cons] at h
    by_cases hk : k' = k
    · subst hk
      rw [upsert, if_pos rfl]
      simp only [List.map_cons, List.nodup_cons]
      exact h
    · rw [upsert, if_neg hk]
      simp only [List.map_cons, List.nodup_cons]
      refine ⟨?_, ih h.2⟩
      intro hmem
      obtain ⟨⟨a, b⟩, hab, habe⟩ := List.mem_map.mp hmem
      rcases mem_upsert k v rest hab with he | he
      · obtain rfl : a = k := congrArg Prod.fst he
        exact hk habe.symm
      · exact h.1 (habe ▸ List.mem_map_of_mem Prod.fst he)

theorem keys_removeKey_nodup {α : Type} (k : String) (m : List (String × α))
    (h : (m.map Prod.fst).Nodup) : ((removeKey k m).map Prod.fst).Nodup := by
  induction m with
  | nil => simp [removeKey]
  | cons p rest ih =>
    obtain ⟨k', v'⟩ := p
    simp only [List.map_cons, List.nodup_cons] at h
    by_cases hk : k' = k
    · simp only [removeKey, if_pos hk]
      exact ih h.2
    · simp only [removeKey, if_neg hk, List.map_cons, List.nodup_cons]
      refine ⟨?_, ih h.2⟩
      intro hmem
      obtain ⟨⟨a, b⟩, hab, habe⟩ := List.mem_map.mp hmem
      exact h.1 (habe ▸ List.mem_map_of_mem Prod.fst (mem_removeKey k rest hab))

theorem keys_filter_nodup {α : Type} (p : String × α → Bool) (m : List (String × α))
    (h : (m.map Prod.fst).Nodup) : (((m.filter p).map Prod.fst)).Nodup :=
  List.Nodup.sublist (List.Sublist.map Prod.fst (List.filter_sublist m)) h

theorem fetch_of_mem_nodup {α : Type} {m : List (String × α)} {k : String} {v : α}
    (hnd : (m.map Prod.fst).Nodup) (hm : (k, v) ∈ m) : fetch k m = some v := by
  induction m with
  | nil => exact absurd hm (List.not_mem_nil _)
  | cons q rest ih =>
    obtain ⟨k', v'⟩ := q
    simp only [List.map_cons, List.nodup_cons] at hnd
    rcases List.mem_cons.mp hm with he | hmem
    · obtain rfl : k = k' := congrArg Prod.fst he
      obtain rfl : v = v' := congrArg Prod.snd he
      simp [fetch]
    · have hk : k' ≠ k := by
        intro he'
        subst he'
        exact hnd.1 (List.mem_map_of_mem Prod.fst hmem)
      rw [fetch, if_neg hk]
      exact ih hnd.2 hmem

theorem fetch_filter_some {α : Type} {p : String × α → Bool} {m : List (String × α)}
    {k : String} {v : α} (hnd : (m.map Prod.fst).Nodup)
    (h : fetch k (m.filter p) = some v) : fetch k m = some v :=
  fetch_of_mem_nodup hnd (List.mem_of_mem_filter (fetch_mem h))

theorem length_upsert_present {α : Type} (k : String) (v : α) {m : List (String × α)}
    {v₀ : α} (h : fetch k m = some v₀) : (upsert k v m).length = m.length := by
  induction m with
  | nil => exact absurd h (by simp [fetch])
  | cons q rest ih =>
    obtain ⟨k', v'⟩ := q
    by_cases hk : k' = k
    · simp [upsert, hk]
    · rw [fetch, if_neg hk] at h
      simp only [upsert, if_neg hk, List.length_cons]
      exact congrArg Nat.succ (ih h)

/-! ### Shape lemmas for the task-manager operations -/

theorem normalizeRequest_id (tm : TMState) (c : Option Nat) (req : TaskRequest) :
    (normalizeRequest tm c req).id = effectiveId tm req := by
  simp only [normalizeRequest, effectiveId]
  by_cases h : req.id = "" <;> simp [h] <;> split <;> rfl

theorem submitTask_snd (tm : TMState) (ctxC pick : Bool) (cfgT : Option Nat)
    (req : TaskRequest) :
    (submitTask tm ctxC pick cfgT req).2 =
      if tm.queue.length < tm.queueMax ∧ (ctxC = false ∨ pick = true) then
        { tm with
          tasks := upsert (normalizeRequest tm cfgT req).id
                     (pendingSnapshot (normalizeRequest tm cfgT req).id) tm.tasks
          queue := tm.queue ++ [normalizeRequest tm cfgT req]
          clock := tm.clock + 1
          usedIds := (normalizeRequest tm cfgT req).id :: tm.usedIds }
      else
        { tm with
          tasks := removeKey (normalizeRequest tm cfgT req).id
                     (upsert (normalizeRequest tm cfgT req).id
                       (pendingSnapshot (normalizeRequest tm cfgT req).id) tm.tasks)
          clock := tm.clock + 1 } := by
  simp only [submitTask]
  split
  · rfl
  · split <;> rfl

theorem submitTask_fst (tm : TMState) (ctxC pick : Bool) (cfgT : Option Nat)
    (req : TaskRequest) :
    (submitTask tm ctxC pick cfgT req).1 =
      if tm.queue.length < tm.queueMax ∧ (ctxC = false ∨ pick = true) then
        .ok (pendingSnapshot (normalizeRequest tm cfgT req).id)
      else if ctxC = true then .ctxErr else .queueFull := by
  simp only [submitTask]
  split
  · rfl
  · split <;> rfl

theorem finishStatus_status (upd : TaskStatus → TaskStatus) (err : Option ErrorCode)
    (now : Nat) (st : TaskStatus) :
    (finishStatus upd err now st).status = "failed" ∨
    (finishStatus upd err now st).status = "completed" := by
  cases err <;> simp [finishStatus]

theorem finishStatus_endTime (upd : TaskStatus → TaskStatus) (err : Option ErrorCode)
    (now : Nat) (st : TaskStatus) : (finishStatus upd err now st).endTime = now := by
  cases err <;> rfl

theorem cancelWorker_phase (w : Worker) (t : String) :
    (if w.currentTaskId = some t then { w with ctxCancelled := true } else w).phase
      = w.phase := by
  split <;> rfl

theorem cancelWorker_exited (w : Worker) (t : String) :
    (if w.currentTaskId = some t then { w with ctxCancelled := true } else w).exited
      = w.exited := by
  split <;> rfl

/-- Invariance transfer between states with identical task-manager content. -/
theorem inv_congr {s s' : SysState} (hi : Inv s)
    (ht : s'.tm.tasks = s.tm.tasks) (hq : s'.tm.queue = s.tm.queue)
    (hw : s'.tm.workers = s.tm.workers) (hu : s'.tm.usedIds = s.tm.usedIds) : Inv s' := by
  constructor
  · rw [ht]; exact hi.tasksKeysNodup
  · rw [ht]; exact hi.statusInDomain
  · rw [ht]; exact hi.endTimeIff
  · rw [ht, hq]; exact hi.queueStatus
  · rw [ht, hw]; exact hi.execStatus
  · rw [ht, hu]; exact hi.usedTasks
  · rw [hq, hu]; exact hi.usedQueue
  · rw [hw, hu]; exact hi.usedExec
  · rw [hq]; exact hi.queueNodup
  · rw [hq, hw]; exact hi.queueExecDisj
  · rw [hw]; exact hi.execExecDisj
  · rw [hw]; exact hi.exitedLooping

theorem initSys_workers_get (queueMax workerCount maxWorktrees : Nat) (i : Nat)
    (w : Worker) (h : (initSys queueMax workerCount maxWorktrees).tm.workers.get? i = some w) :
    w.phase = .looping ∧ w.exited = false ∧ w.ctxCancelled = false := by
  simp only [initSys, List.get?_map] at h
  cases hr : (List.range workerCount).get? i with
  | none => rw [hr] at h; exact absurd h (by simp)
  | some j =>
    rw [hr] at h
    obtain rfl : ({ wid := j } : Worker) = w := Option.some.inj h
    exact ⟨rfl, rfl, rfl⟩

theorem inv_init (queueMax workerCount maxWorktrees : Nat) :
    Inv (initSys queueMax workerCount maxWorktrees) := by
  constructor
  · simp [initSys]
  · intro id st h; exact absurd h (by simp [initSys, fetch])
  · intro id st h; exact absurd h (by simp [initSys, fetch])
  · intro req h; exact absurd h (by simp [initSys])
  · intro i w req hw hp
    exact absurd ((initSys_workers_get _ _ _ _ _ hw).1.symm.trans hp) (by simp)
  · intro id st h; exact absurd h (by simp [initSys, fetch])
  · intro req h; exact absurd h (by simp [initSys])
  · intro i w req hw hp
    exact absurd ((initSys_workers_get _ _ _ _ _ hw).1.symm.trans hp) (by simp)
  · simp [initSys]
  · intro req h; exact absurd h (by simp [initSys])
  · intro i j wi wj ri rj hij hwi hwj hpi hpj
    exact absurd ((initSys_workers_get _ _ _ _ _ hwi).1.symm.trans hpi) (by simp)
  · intro i w hw hex
    exact absurd ((initSys_workers_get _ _ _ _ _ hw).2.1.symm.trans hex) (by simp)

theorem inv_submit {s : SysState} (hi : Inv s) (ctxC pick : Bool) (cfgT : Option Nat)
    (req : TaskRequest) (hfresh : effectiveId s.tm req ∉ s.tm.usedIds) :
    Inv { s with tm := (submitTask s.tm ctxC pick cfgT req).2 } := by
  have hid : (normalizeRequest s.tm cfgT req).id = effectiveId s.tm req :=
    normalizeRequest_id s.tm cfgT req
  have hqnone : fetch (effectiveId s.tm req) s.tm.tasks = none := by
    cases hf : fetch (effectiveId s.tm req) s.tm.tasks with
    | none => rfl
    | some st => exact absurd (hi.usedTasks _ _ hf) hfresh
  rw [submitTask_snd]
  split
  · -- the enqueue case succeeded
    refine ⟨?_, ?_, ?_, ?_, ?_, ?_, ?_, ?_, ?_, ?_, ?_, ?_⟩ <;> dsimp only
    · exact keys_upsert_nodup _ _ _ hi.tasksKeysNodup
    · intro id st h
      by_cases hq : id = (normalizeRequest s.tm cfgT req).id
      · subst hq
        rw [fetch_upsert_self] at h
        obtain rfl := Option.some.inj h
        simp [pendingSnapshot, taskStatusDomain]
      · rw [fetch_upsert_ne _ _ _ _ hq] at h
        exact hi.statusInDomain _ _ h
    · intro id st h
      by_cases hq : id = (normalizeRequest s.tm cfgT req).id
      · subst hq
        rw [fetch_upsert_self] at h
        obtain rfl := Option.some.inj h
        simp [pendingSnapshot, isTerminalCheck]
      · rw [fetch_upsert_ne _ _ _ _ hq] at h
        exact hi.endTimeIff _ _ h
    · intro req' hmem
      rcases List.mem_append.mp hmem with hold | hnew
      · have hne : req'.id ≠ (normalizeRequest s.tm cfgT req).id := by
          rw [hid]
          intro he
          exact hfresh (he ▸ hi.usedQueue _ hold)
        rw [fetch_upsert_ne _ _ _ _ hne]
        exact hi.queueStatus _ hold
      · obtain rfl := List.mem_singleton.mp hnew
        rw [fetch_upsert_self]
        exact Or.inr ⟨_, rfl, Or.inl rfl⟩
    · intro i w req' hw hp
      have hne : req'.id ≠ (normalizeRequest s.tm cfgT req).id := by
        rw [hid]
        intro he
        exact hfresh (he ▸ hi.usedExec _ _ _ hw hp)
      rw [fetch_upsert_ne _ _ _ _ hne]
      exact hi.execStatus _ _ _ hw hp
    · intro id st h
      by_cases hq : id = (normalizeRequest s.tm cfgT req).id
      · subst hq
        exact List.mem_cons_self _ _
      · rw [fetch_upsert_ne _ _ _ _ hq] at h
        exact List.mem_cons_of_mem _ (hi.usedTasks _ _ h)
    · intro req' hmem
      rcases List.mem_append.mp hmem with hold | hnew
      · exact List.mem_cons_of_mem _ (hi.usedQueue _ hold)
      · obtain rfl := List.mem_singleton.mp hnew
        exact List.mem_cons_self _ _
    · intro i w req' hw hp
      exact List.mem_cons_of_mem _ (hi.usedExec _ _ _ hw hp)
    · rw [List.map_append]
      refine List.nodup_append.mpr ⟨hi.queueNodup, by simp, ?_⟩
      intro a ha hb
      simp only [List.map_cons, List.map_nil, List.mem_singleton] at hb
      subst hb
      obtain ⟨r, hr, hre⟩ := List.mem_map.mp ha
      apply hfresh
      rw [← hid, ← hre]
      exact hi.usedQueue _ hr
    · intro req' hmem i w req'' hw hp
      rcases List.mem_append.mp hmem with hold | hnew
      · exact hi.queueExecDisj _ hold _ _ _ hw hp
      · obtain rfl := List.mem_singleton.mp hnew
        rw [hid]
        intro he
        exact hfresh (he ▸ hi.usedExec _ _ _ hw hp)
    · exact hi.execExecDisj
    · exact hi.exitedLooping
  · -- both failure branches delete the just-registered entry
    refine inv_congr hi ?_ rfl rfl rfl
    dsimp only
    rw [hid]
    exact removeKey_upsert_fresh _ _ _ hqnone

/-- Unpack a worker fetched from the cancel-notification map. -/
theorem cancelMap_get {ws : List Worker} {taskID : String} {i : Nat} {w' : Worker}
    (h : (ws.map (fun w =>
        if w.currentTaskId = some taskID then { w with ctxCancelled := true } else w)).get? i
      = some w') :
    ∃ w, ws.get? i = some w ∧ w'.phase = w.phase ∧ w'.exited = w.exited := by
  rw [List.get?_map] at h
  cases hg : ws.get? i with
  | none => rw [hg] at h; exact absurd h (by simp)
  | some w =>
    rw [hg] at h
    obtain he := Option.some.inj h
    exact ⟨w, rfl, by rw [← he, cancelWorker_phase], by rw [← he, cancelWorker_exited]⟩

theorem inv_cancel {s : SysState} (hi : Inv s) (taskID : String) :
    Inv { s with tm := (cancelTask s.tm taskID).2 } := by
  cases hf : fetch taskID s.tm.tasks with
  | none =>
    have he : (cancelTask s.tm taskID).2 = { s.tm with clock := s.tm.clock + 1 } := by
      simp [cancelTask, hf]
    rw [he]
    exact inv_congr hi rfl rfl rfl rfl
  | some st =>
    by_cases hterm : isTerminalCheck st.status = true
    · have he : (cancelTask s.tm taskID).2 = { s.tm with clock := s.tm.clock + 1 } := by
        simp [cancelTask, hf, hterm]
      rw [he]
      exact inv_congr hi rfl rfl rfl rfl
    · have he : (cancelTask s.tm taskID).2 =
        { s.tm with
          tasks := upsert taskID
            { st with status := "cancelled", message := "任务已取消",
                      endTime := s.tm.clock + 1 } s.tm.tasks
          workers := s.tm.workers.map (fun w =>
            if w.currentTaskId = some taskID then { w with ctxCancelled := true } else w)
          clock := s.tm.clock + 1 } := by
        simp [cancelTask, hf, hterm]
      rw [he]
      refine ⟨?_, ?_, ?_, ?_, ?_, ?_, ?_, ?_, ?_, ?_, ?_, ?_⟩ <;> dsimp only
      · exact keys_upsert_nodup _ _ _ hi.tasksKeysNodup
      · intro id st' h
        by_cases hq : id = taskID
        · subst hq
          rw [fetch_upsert_self] at h
          obtain rfl := Option.some.inj h
          simp [taskStatusDomain]
        · rw [fetch_upsert_ne _ _ _ _ hq] at h
          exact hi.statusInDomain _ _ h
      · intro id st' h
        by_cases hq : id = taskID
        · subst hq
          rw [fetch_upsert_self] at h
          obtain rfl := Option.some.inj h
          simp [isTerminalCheck]
        · rw [fetch_upsert_ne _ _ _ _ hq] at h
          exact hi.endTimeIff _ _ h
      · intro req' hmem
        by_cases hq : req'.id = taskID
        · rw [hq, fetch_upsert_self]
          exact Or.inr ⟨_, rfl, Or.inr rfl⟩
        · rw [fetch_upsert_ne _ _ _ _ hq]
          exact hi.queueStatus _ hmem
      · intro i w' req' hw' hp'
        obtain ⟨w, hg, hph, _⟩ := cancelMap_get hw'
        have hp : w.phase = .executing req' := hph ▸ hp'
        by_cases hq : req'.id = taskID
        · rw [hq, fetch_upsert_self]
          exact Or.inr ⟨_, rfl, Or.inr rfl⟩
        · rw [fetch_upsert_ne _ _ _ _ hq]
          exact hi.execStatus _ _ _ hg hp
      · intro id st' h
        by_cases hq : id = taskID
        · subst hq
          exact hi.usedTasks _ _ hf
        · rw [fetch_upsert_ne _ _ _ _ hq] at h
          exact hi.usedTasks _ _ h
      · exact hi.usedQueue
      · intro i w' req' hw' hp'
        obtain ⟨w, hg, hph, _⟩ := cancelMap_get hw'
        exact hi.usedExec _ _ _ hg (hph ▸ hp')
      · exact hi.queueNodup
      · intro req' hmem i w' req'' hw' hp'
        obtain ⟨w, hg, hph, _⟩ := cancelMap_get hw'
        exact hi.queueExecDisj _ hmem _ _ _ hg (hph ▸ hp')
      · intro i j wi' wj' ri rj hij hwi' hwj' hpi' hpj'
        obtain ⟨wi, hgi, hphi, _⟩ := cancelMap_get hwi'
        obtain ⟨wj, hgj, hphj, _⟩ := cancelMap_get hwj'
        exact hi.execExecDisj _ _ _ _ _ _ hij hgi hgj (hphi ▸ hpi') (hphj ▸ hpj')
      · intro i w' hw' hex'
        obtain ⟨w, hg, hph, hexeq⟩ := cancelMap_get hw'
        rw [hph]
        exact hi.exitedLooping _ _ hg (hexeq ▸ hex')

/-- Dropping the queue head (the pickup-skip paths) preserves the invariant. -/
theorem inv_drop_head {s : SysState} (hi : Inv s) (req : TaskRequest)
    (rest : List TaskRequest) (hqe : s.tm.queue = req :: rest) (s' : SysState)
    (ht : s'.tm.tasks = s.tm.tasks) (hq : s'.tm.queue = rest)
    (hw : s'.tm.workers = s.tm.workers) (hu : s'.tm.usedIds = s.tm.usedIds) : Inv s' := by
  constructor
  · rw [ht]; exact hi.tasksKeysNodup
  · rw [ht]; exact hi.statusInDomain
  · rw [ht]; exact hi.endTimeIff
  · rw [ht, hq]
    intro r hm
    exact hi.queueStatus r (hqe ▸ List.mem_cons_of_mem _ hm)
  · rw [ht, hw]; exact hi.execStatus
  · rw [ht, hu]; exact hi.usedTasks
  · rw [hq, hu]
    intro r hm
    exact hi.usedQueue r (hqe ▸ List.mem_cons_of_mem _ hm)
  · rw [hw, hu]; exact hi.usedExec
  · rw [hq]
    have h0 := hi.queueNodup
    rw [hqe, List.map_cons] at h0
    exact (List.nodup_cons.mp h0).2
  · rw [hq, hw]
    intro r hm i w r' hwg hp
    exact hi.queueExecDisj r (hqe ▸ List.mem_cons_of_mem _ hm) i w r' hwg hp
  · rw [hw]; exact hi.execExecDisj
  · rw [hw]; exact hi.exitedLooping

theorem inv_wstart {s : SysState} (hi : Inv s) (i : Nat) (w : Worker)
    (hw : s.tm.workers.get? i = some w) (hex : w.exited = false) :
    Inv (workerStart s i) := by
  cases hqe : s.tm.queue with
  | nil =>
    have he : workerStart s i = s := by simp [workerStart, hqe]
    rw [he]
    exact hi
  | cons req rest =>
    have hreqmem : req ∈ s.tm.queue := hqe ▸ List.mem_cons_self _ _
    have hhead : req.id ∉ rest.map TaskRequest.id := by
      have h0 := hi.queueNodup
      rw [hqe, List.map_cons] at h0
      exact (List.nodup_cons.mp h0).1
    have hrestne : ∀ r ∈ rest, r.id ≠ req.id := by
      intro r hr he
      exact hhead (he ▸ List.mem_map_of_mem _ hr)
    have hwg : s.tm.workers[i]? = some w := by simpa using hw
    cases hfq : fetch req.id s.tm.tasks with
    | none =>
      have he : workerStart s i =
          { s with tm := { s.tm with queue := rest, clock := s.tm.clock + 1 } } := by
        simp [workerStart, hqe, hwg, hfq]
      rw [he]
      exact inv_drop_head hi req rest hqe _ rfl rfl rfl rfl
    | some st =>
      by_cases hcs : st.status = "cancelled"
      · have he : workerStart s i =
            { s with tm := { s.tm with queue := rest, clock := s.tm.clock + 1 } } := by
          simp [workerStart, hqe, hwg, hfq, hcs]
        rw [he]
        exact inv_drop_head hi req rest hqe _ rfl rfl rfl rfl
      · have hpend : st.status = "pending" := by
          rcases hi.queueStatus req hreqmem with hnone | ⟨st', hfq', hst'⟩
          · rw [hfq] at hnone; exact absurd hnone (by simp)
          · rw [hfq] at hfq'
            obtain rfl := Option.some.inj hfq'
            rcases hst' with h | h
            · exact h
            · exact absurd h hcs
        have hend0 : st.endTime = 0 := by
          by_contra hne
          have := (hi.endTimeIff _ _ hfq).mpr hne
          rw [hpend] at this
          simp [isTerminalCheck] at this
        obtain ⟨hlt, _⟩ := List.get?_eq_some.mp hw
        have he : workerStart s i =
            { s with tm := { s.tm with
                tasks := upsert req.id
                  { st with status := "running", message := "任务正在执行",
                            startTime := s.tm.clock + 1, progress := (1 : ℚ)/10 } s.tm.tasks
                workers := s.tm.workers.set i { w with phase := .executing req }
                queue := rest
                clock := s.tm.clock + 1 } } := by
          simp [workerStart, hqe, hwg, hfq, hcs]
        rw [he]
        refine ⟨?_, ?_, ?_, ?_, ?_, ?_, ?_, ?_, ?_, ?_, ?_, ?_⟩ <;> dsimp only
        · exact keys_upsert_nodup _ _ _ hi.tasksKeysNodup
        · intro id st' h
          by_cases hq : id = req.id
          · subst hq
            rw [fetch_upsert_self] at h
            obtain rfl := Option.some.inj h
            simp [taskStatusDomain]
          · rw [fetch_upsert_ne _ _ _ _ hq] at h
            exact hi.statusInDomain _ _ h
        · intro id st' h
          by_cases hq : id = req.id
          · subst hq
            rw [fetch_upsert_self] at h
            obtain rfl := Option.some.inj h
            simp [isTerminalCheck, hend0]
          · rw [fetch_upsert_ne _ _ _ _ hq] at h
            exact hi.endTimeIff _ _ h
        · intro r hm
          rw [fetch_upsert_ne _ _ _ _ (hrestne r hm)]
          exact hi.queueStatus r (hqe ▸ List.mem_cons_of_mem _ hm)
        · intro i' w' req' hw' hp'
          by_cases hii : i' = i
          · subst hii
            rw [List.get?_set_eq_of_lt _ hlt] at hw'
            obtain rfl := Option.some.inj hw'
            obtain rfl : req' = req := by
              have := hp'
              simp only at this
              exact (WorkerPhase.executing.inj this).symm
            rw [fetch_upsert_self]
            exact Or.inr ⟨_, rfl, Or.inl rfl⟩
          · rw [List.get?_set_ne _ _ (fun h => hii h.symm)] at hw'
            have hne : req'.id ≠ req.id :=
              (hi.queueExecDisj req hreqmem i' w' req' hw' hp').symm
            rw [fetch_upsert_ne _ _ _ _ hne]
            exact hi.execStatus _ _ _ hw' hp'
        · intro id st' h
          by_cases hq : id = req.id
          · subst hq
            exact hi.usedQueue req hreqmem
          · rw [fetch_upsert_ne _ _ _ _ hq] at h
            exact hi.usedTasks _ _ h
        · intro r hm
          exact hi.usedQueue r (hqe ▸ List.mem_cons_of_mem _ hm)
        · intro i' w' req' hw' hp'
          by_cases hii : i' = i
          · rw [hii, List.get?_set_eq_of_lt _ hlt] at hw'
            have hwv := Option.some.inj hw'
            have hre : req' = req := by
              rw [← hwv] at hp'
              simp only at hp'
              exact (WorkerPhase.executing.inj hp').symm
            rw [hre]
            exact hi.usedQueue req hreqmem
          · rw [List.get?_set_ne _ _ (fun h => hii h.symm)] at hw'
            exact hi.usedExec _ _ _ hw' hp'
        · have h0 := hi.queueNodup
          rw [hqe, List.map_cons] at h0
          exact (List.nodup_cons.mp h0).2
        · intro r hm i' w' req' hw' hp'
          by_cases hii : i' = i
          · rw [hii, List.get?_set_eq_of_lt _ hlt] at hw'
            have hwv := Option.some.inj hw'
            have hre : req' = req := by
              rw [← hwv] at hp'
              simp only at hp'
              exact (WorkerPhase.executing.inj hp').symm
            rw [hre]
            exact hrestne r hm
          · rw [List.get?_set_ne _ _ (fun h => hii h.symm)] at hw'
            exact hi.queueExecDisj r (hqe ▸ List.mem_cons_of_mem _ hm) i' w' req' hw' hp'
        · intro i' j' wi wj ri rj hij hwi hwj hpi hpj
          by_cases hii : i' = i
          · rw [hii, List.get?_set_eq_of_lt _ hlt] at hwi
            have hwv := Option.some.inj hwi
            have hri : ri = req := by
              rw [← hwv] at hpi
              simp only at hpi
              exact (WorkerPhase.executing.inj hpi).symm
            have hjne : i ≠ j' := by rw [← hii]; exact hij
            rw [List.get?_set_ne _ _ hjne] at hwj
            rw [hri]
            exact hi.queueExecDisj req hreqmem j' wj rj hwj hpj
          · rw [List.get?_set_ne _ _ (fun h => hii h.symm)] at hwi
            by_cases hjj : j' = i
            · rw [hjj, List.get?_set_eq_of_lt _ hlt] at hwj
              have hwv := Option.some.inj hwj
              have hrj : rj = req := by
                rw [← hwv] at hpj
                simp only at hpj
                exact (WorkerPhase.executing.inj hpj).symm
              rw [hrj]
              exact (hi.queueExecDisj req hreqmem i' wi ri hwi hpi).symm
            · rw [List.get?_set_ne _ _ (fun h => hjj h.symm)] at hwj
              exact hi.execExecDisj _ _ _ _ _ _ hij hwi hwj hpi hpj
        · intro i' w' hw' hex'
          by_cases hii : i' = i
          · subst hii
            rw [List.get?_set_eq_of_lt _ hlt] at hw'
            obtain rfl := Option.some.inj hw'
            exact absurd (hex ▸ hex') (by simp)
          · rw [List.get?_set_ne _ _ (fun h => hii h.symm)] at hw'
            exact hi.exitedLooping _ _ hw' hex'

theorem inv_wfinishTM {s : SysState} (hi : Inv s) (i : Nat) (w : Worker)
    (req : TaskRequest) (hw : s.tm.workers.get? i = some w)
    (hph : w.phase = .executing req) (upd : TaskStatus → TaskStatus)
    (err : Option ErrorCode) (wm' : WMState) :
    Inv { tm := workerFinishTM s.tm i w req upd err, wm := wm' } := by
  have hex : w.exited = false := by
    cases hexv : w.exited
    · rfl
    · have h2 := hi.exitedLooping _ _ hw hexv
      rw [hph] at h2
      exact absurd h2 (by simp)
  obtain ⟨hlt, _⟩ := List.get?_eq_some.mp hw
  have hreqid : req.id ∈ s.tm.usedIds := hi.usedExec _ _ _ hw hph
  have hqne : ∀ r ∈ s.tm.queue, r.id ≠ req.id := fun r hm =>
    hi.queueExecDisj r hm i w req hw hph
  cases hf : fetch req.id s.tm.tasks with
  | none =>
    have he : workerFinishTM s.tm i w req upd err =
        { s.tm with workers := s.tm.workers.set i { w with phase := .looping },
                    clock := s.tm.clock + 1 } := by
      simp [workerFinishTM, hf]
    rw [he]
    refine ⟨?_, ?_, ?_, ?_, ?_, ?_, ?_, ?_, ?_, ?_, ?_, ?_⟩ <;> dsimp only
    · exact hi.tasksKeysNodup
    · exact hi.statusInDomain
    · exact hi.endTimeIff
    · exact hi.queueStatus
    · intro i' w' req' hw' hp'
      by_cases hii : i' = i
      · rw [hii, List.get?_set_eq_of_lt _ hlt] at hw'
        rw [← Option.some.inj hw'] at hp'
        exact absurd hp' (by simp)
      · rw [List.get?_set_ne _ _ (fun h => hii h.symm)] at hw'
        exact hi.execStatus _ _ _ hw' hp'
    · exact hi.usedTasks
    · exact hi.usedQueue
    · intro i' w' req' hw' hp'
      by_cases hii : i' = i
      · rw [hii, List.get?_set_eq_of_lt _ hlt] at hw'
        rw [← Option.some.inj hw'] at hp'
        exact absurd hp' (by simp)
      · rw [List.get?_set_ne _ _ (fun h => hii h.symm)] at hw'
        exact hi.usedExec _ _ _ hw' hp'
    · exact hi.queueNodup
    · intro r hm i' w' req' hw' hp'
      by_cases hii : i' = i
      · rw [hii, List.get?_set_eq_of_lt _ hlt] at hw'
        rw [← Option.some.inj hw'] at hp'
        exact absurd hp' (by simp)
      · rw [List.get?_set_ne _ _ (fun h => hii h.symm)] at hw'
        exact hi.queueExecDisj r hm i' w' req' hw' hp'
    · intro i' j' wi wj ri rj hij hwi hwj hpi hpj
      by_cases hii : i' = i
      · rw [hii, List.get?_set_eq_of_lt _ hlt] at hwi
        rw [← Option.some.inj hwi] at hpi
        exact absurd hpi (by simp)
      · rw [List.get?_set_ne _ _ (fun h => hii h.symm)] at hwi
        by_cases hjj : j' = i
        · rw [hjj, List.get?_set_eq_of_lt _ hlt] at hwj
          rw [← Option.some.inj hwj] at hpj
          exact absurd hpj (by simp)
        · rw [List.get?_set_ne _ _ (fun h => hjj h.symm)] at hwj
          exact hi.execExecDisj _ _ _ _ _ _ hij hwi hwj hpi hpj
    · intro i' w' hw' hex'
      by_cases hii : i' = i
      · rw [hii, List.get?_set_eq_of_lt _ hlt] at hw'
        rw [← Option.some.inj hw'] at hex'
        exact absurd (hex ▸ hex') (by simp)
      · rw [List.get?_set_ne _ _ (fun h => hii h.symm)] at hw'
        exact hi.exitedLooping _ _ hw' hex'
  | some st =>
    have he : workerFinishTM s.tm i w req upd err =
        { s.tm with
          tasks := upsert req.id (finishStatus upd err (s.tm.clock + 1) st) s.tm.tasks
          workers := s.tm.workers.set i { w with phase := .looping }
          clock := s.tm.clock + 1 } := by
      simp [workerFinishTM, hf]
    rw [he]
    refine ⟨?_, ?_, ?_, ?_, ?_, ?_, ?_, ?_, ?_, ?_, ?_, ?_⟩ <;> dsimp only
    · exact keys_upsert_nodup _ _ _ hi.tasksKeysNodup
    · intro id st' h
      by_cases hq : id = req.id
      · subst hq
        rw [fetch_upsert_self] at h
        obtain rfl := Option.some.inj h
        rcases finishStatus_status upd err (s.tm.clock + 1) st with h2 | h2 <;>
          rw [h2] <;> simp [taskStatusDomain]
      · rw [fetch_upsert_ne _ _ _ _ hq] at h
        exact hi.statusInDomain _ _ h
    · intro id st' h
      by_cases hq : id = req.id
      · subst hq
        rw [fetch_upsert_self] at h
        obtain rfl := Option.some.inj h
        rw [finishStatus_endTime]
        rcases finishStatus_status upd err (s.tm.clock + 1) st with h2 | h2 <;>
          rw [h2] <;> simp [isTerminalCheck]
      · rw [fetch_upsert_ne _ _ _ _ hq] at h
        exact hi.endTimeIff _ _ h
    · intro r hm
      rw [fetch_upsert_ne _ _ _ _ (hqne r hm)]
      exact hi.queueStatus r hm
    · intro i' w' req' hw' hp'
      by_cases hii : i' = i
      · rw [hii, List.get?_set_eq_of_lt _ hlt] at hw'
        rw [← Option.some.inj hw'] at hp'
        exact absurd hp' (by simp)
      · rw [List.get?_set_ne _ _ (fun h => hii h.symm)] at hw'
        have hne : req'.id ≠ req.id :=
          hi.execExecDisj i' i w' w req' req hii hw' hw hp' hph
        rw [fetch_upsert_ne _ _ _ _ hne]
        exact hi.execStatus _ _ _ hw' hp'
    · intro id st' h
      by_cases hq : id = req.id
      · subst hq
        exact hreqid
      · rw [fetch_upsert_ne _ _ _ _ hq] at h
        exact hi.usedTasks _ _ h
    · exact hi.usedQueue
    · intro i' w' req' hw' hp'
      by_cases hii : i' = i
      · rw [hii, List.get?_set_eq_of_lt _ hlt] at hw'
        rw [← Option.some.inj hw'] at hp'
        exact absurd hp' (by simp)
      · rw [List.get?_set_ne _ _ (fun h => hii h.symm)] at hw'
        exact hi.usedExec _ _ _ hw' hp'
    · exact hi.queueNodup
    · intro r hm i' w' req' hw' hp'
      by_cases hii : i' = i
      · rw [hii, List.get?_set_eq_of_lt _ hlt] at hw'
        rw [← Option.some.inj hw'] at hp'
        exact absurd hp' (by simp)
      · rw [List.get?_set_ne _ _ (fun h => hii h.symm)] at hw'
        exact hi.queueExecDisj r hm i' w' req' hw' hp'
    · intro i' j' wi wj ri rj hij hwi hwj hpi hpj
      by_cases hii : i' = i
      · rw [hii, List.get?_set_eq_of_lt _ hlt] at hwi
        rw [← Option.some.inj hwi] at hpi
        exact absurd hpi (by simp)
      · rw [List.get?_set_ne _ _ (fun h => hii h.symm)] at hwi
        by_cases hjj : j' = i
        · rw [hjj, List.get?_set_eq_of_lt _ hlt] at hwj
          rw [← Option.some.inj hwj] at hpj
          exact absurd hpj (by simp)
        · rw [List.get?_set_ne _ _ (fun h => hjj h.symm)] at hwj
          exact hi.execExecDisj _ _ _ _ _ _ hij hwi hwj hpi hpj
    · intro i' w' hw' hex'
      by_cases hii : i' = i
      · rw [hii, List.get?_set_eq_of_lt _ hlt] at hw'
        rw [← Option.some.inj hw'] at hex'
        exact absurd (hex ▸ hex') (by simp)
      · rw [List.get?_set_ne _ _ (fun h => hii h.symm)] at hw'
        exact hi.exitedLooping _ _ hw' hex'

theorem inv_wfinish {s : SysState} (hi : Inv s) (i : Nat) (pathOk convOk : Bool)
    (wslPath : String) (isGit opOk : Bool) (branchRes : Option String)
    (claudeOk delRmOk : Bool) (removeOk : String → Bool) (baseDir : String) :
    Inv (workerFinish s i pathOk convOk wslPath isGit opOk branchRes claudeOk delRmOk
          removeOk baseDir) := by
  cases hw : s.tm.workers.get? i with
  | none =>
    have hwg : s.tm.workers[i]? = none := by simpa using hw
    have he : workerFinish s i pathOk convOk wslPath isGit opOk branchRes claudeOk
        delRmOk removeOk baseDir = s := by
      simp [workerFinish, hwg]
    rw [he]
    exact hi
  | some w =>
    have hwg : s.tm.workers[i]? = some w := by simpa using hw
    cases hph : w.phase with
    | looping =>
      have he : workerFinish s i pathOk convOk wslPath isGit opOk branchRes claudeOk
          delRmOk removeOk baseDir = s := by
        simp [workerFinish, hwg, hph]
      rw [he]
      exact hi
    | executing req =>
      have he : workerFinish s i pathOk convOk wslPath isGit opOk branchRes claudeOk
          delRmOk removeOk baseDir =
          { tm := workerFinishTM s.tm i w req
              (workerFinishBody s.wm req pathOk convOk wslPath isGit opOk branchRes
                claudeOk delRmOk removeOk baseDir).1
              (workerFinishBody s.wm req pathOk convOk wslPath isGit opOk branchRes
                claudeOk delRmOk removeOk baseDir).2.1,
            wm := (workerFinishBody s.wm req pathOk convOk wslPath isGit opOk branchRes
                claudeOk delRmOk removeOk baseDir).2.2 } := by
        simp [workerFinish, hwg, hph]
      rw [he]
      exact inv_wfinishTM hi i w req hw hph _ _ _

theorem inv_wexit {s : SysState} (hi : Inv s) (i : Nat) (w : Worker)
    (hw : s.tm.workers.get? i = some w) (hph : w.phase = .looping) :
    Inv (workerExit s i) := by
  have hwg : s.tm.workers[i]? = some w := by simpa using hw
  obtain ⟨hlt, _⟩ := List.get?_eq_some.mp hw
  have he : workerExit s i =
      { s with tm := { s.tm with
          workers := s.tm.workers.set i { w with exited := true } } } := by
    simp [workerExit, hwg]
  rw [he]
  refine ⟨?_, ?_, ?_, ?_, ?_, ?_, ?_, ?_, ?_, ?_, ?_, ?_⟩ <;> dsimp only
  · exact hi.tasksKeysNodup
  · exact hi.statusInDomain
  · exact hi.endTimeIff
  · exact hi.queueStatus
  · intro i' w' req' hw' hp'
    by_cases hii : i' = i
    · rw [hii, List.get?_set_eq_of_lt _ hlt] at hw'
      rw [← Option.some.inj hw'] at hp'
      simp only at hp'
      rw [hph] at hp'
      exact absurd hp' (by simp)
    · rw [List.get?_set_ne _ _ (fun h => hii h.symm)] at hw'
      exact hi.execStatus _ _ _ hw' hp'
  · exact hi.usedTasks
  · exact hi.usedQueue
  · intro i' w' req' hw' hp'
    by_cases hii : i' = i
    · rw [hii, List.get?_set_eq_of_lt _ hlt] at hw'
      rw [← Option.some.inj hw'] at hp'
      simp only at hp'
      rw [hph] at hp'
      exact absurd hp' (by simp)
    · rw [List.get?_set_ne _ _ (fun h => hii h.symm)] at hw'
      exact hi.usedExec _ _ _ hw' hp'
  · exact hi.queueNodup
  · intro r hm i' w' req' hw' hp'
    by_cases hii : i' = i
    · rw [hii, List.get?_set_eq_of_lt _ hlt] at hw'
      rw [← Option.some.inj hw'] at hp'
      simp only at hp'
      rw [hph] at hp'
      exact absurd hp' (by simp)
    · rw [List.get?_set_ne _ _ (fun h => hii h.symm)] at hw'
      exact hi.queueExecDisj r hm i' w' req' hw' hp'
  · intro i' j' wi wj ri rj hij hwi hwj hpi hpj
    by_cases hii : i' = i
    · rw [hii, List.get?_set_eq_of_lt _ hlt] at hwi
      rw [← Option.some.inj hwi] at hpi
      simp only at hpi
      rw [hph] at hpi
      exact absurd hpi (by simp)
    · rw [List.get?_set_ne _ _ (fun h => hii h.symm)] at hwi
      by_cases hjj : j' = i
      · rw [hjj, List.get?_set_eq_of_lt _ hlt] at hwj
        rw [← Option.some.inj hwj] at hpj
        simp only at hpj
        rw [hph] at hpj
        exact absurd hpj (by simp)
      · rw [List.get?_set_ne _ _ (fun h => hjj h.symm)] at hwj
        exact hi.execExecDisj _ _ _ _ _ _ hij hwi hwj hpi hpj
  · intro i' w' hw' hex'
    by_cases hii : i' = i
    · rw [hii, List.get?_set_eq_of_lt _ hlt] at hw'
      rw [← Option.some.inj hw']
      simp only
      exact hph
    · rw [List.get?_set_ne _ _ (fun h => hii h.symm)] at hw'
      exact hi.exitedLooping _ _ hw' hex'

theorem inv_reap {s : SysState} (hi : Inv s) :
    Inv { s with tm := cleanupCompletedTasks s.tm } := by
  have he : (cleanupCompletedTasks s.tm).tasks = s.tm.tasks.filter (fun p =>
      ! (isTerminalCheck p.2.status && decide (p.2.endTime ≠ 0)
          && decide (p.2.endTime < s.tm.clock + 1 - taskRetention))) := rfl
  refine ⟨?_, ?_, ?_, ?_, ?_, ?_, ?_, ?_, ?_, ?_, ?_, ?_⟩ <;> simp only [he]
  · exact keys_filter_nodup _ _ hi.tasksKeysNodup
  · intro id st h
    exact hi.statusInDomain _ _ (fetch_filter_some hi.tasksKeysNodup h)
  · intro id st h
    exact hi.endTimeIff _ _ (fetch_filter_some hi.tasksKeysNodup h)
  · intro r hm
    cases hfr : fetch r.id (s.tm.tasks.filter _) with
    | none => exact Or.inl rfl
    | some st'' =>
      have horig := fetch_filter_some hi.tasksKeysNodup hfr
      rcases hi.queueStatus r hm with hnone | ⟨st0, hst0, hp0⟩
      · rw [horig] at hnone; exact absurd hnone (by simp)
      · rw [horig] at hst0
        obtain rfl := Option.some.inj hst0
        exact Or.inr ⟨st'', rfl, hp0⟩
  · intro i' w' req' hw' hp'
    cases hfr : fetch req'.id (s.tm.tasks.filter _) with
    | none => exact Or.inl rfl
    | some st'' =>
      have horig := fetch_filter_some hi.tasksKeysNodup hfr
      rcases hi.execStatus _ _ _ hw' hp' with hnone | ⟨st0, hst0, hp0⟩
      · rw [horig] at hnone; exact absurd hnone (by simp)
      · rw [horig] at hst0
        obtain rfl := Option.some.inj hst0
        exact Or.inr ⟨st'', rfl, hp0⟩
  · intro id st h
    exact hi.usedTasks _ _ (fetch_filter_some hi.tasksKeysNodup h)
  · exact hi.usedQueue
  · exact hi.usedExec
  · exact hi.queueNodup
  · exact hi.queueExecDisj
  · exact hi.execExecDisj
  · exact hi.exitedLooping

/-- The inductive invariant is preserved by every system step. -/
theorem inv_step {s s' : SysState} (hi : Inv s) (hs : Step s s') : Inv s' := by
  cases hs with
  | submit ctxC pick cfgT req hfresh => exact inv_submit hi ctxC pick cfgT req hfresh
  | cancel taskID => exact inv_cancel hi taskID
  | wstart i w hw hex hph => exact inv_wstart hi i w hw hex
  | wfinish i w req hw hex hph pathOk convOk wslPath isGit opOk branchRes claudeOk
      delRmOk removeOk baseDir =>
    exact inv_wfinish hi i pathOk convOk wslPath isGit opOk branchRes claudeOk delRmOk
      removeOk baseDir
  | wexit i w hw hex hph hc => exact inv_wexit hi i w hw hph
  | reap => exact inv_reap hi
  | sweep removeOk => exact inv_congr hi rfl rfl rfl rfl

/-- Every reachable system state satisfies the inductive invariant. -/
theorem reachable_inv {s : SysState} (h : Reachable s) : Inv s := by
  induction h with
  | init q wc mw => exact inv_init q wc mw
  | step s s' hr hs ih => exact inv_step ih hs

theorem quiescent_wfinishTM {s : SysState} (t : String) (hq : cancelledQuiescent s t)
    (i : Nat) (w : Worker) (req : TaskRequest) (hw : s.tm.workers.get? i = some w)
    (hph : w.phase = .executing req) (upd : TaskStatus → TaskStatus)
    (err : Option ErrorCode) (wm' : WMState) :
    cancelledQuiescent { tm := workerFinishTM s.tm i w req upd err, wm := wm' } t := by
  obtain ⟨hused, hstat, hnoexec⟩ := hq
  obtain ⟨hlt, _⟩ := List.get?_eq_some.mp hw
  have hne : req.id ≠ t := hnoexec i w req hw hph
  have htasks : fetch t (workerFinishTM s.tm i w req upd err).tasks
      = fetch t s.tm.tasks := by
    cases hf : fetch req.id s.tm.tasks with
    | none => simp [workerFinishTM, hf]
    | some st =>
      have he : (workerFinishTM s.tm i w req upd err).tasks =
          upsert req.id (finishStatus upd err (s.tm.clock + 1) st) s.tm.tasks := by
        simp [workerFinishTM, hf]
      rw [he, fetch_upsert_ne _ _ _ _ (fun he2 => hne he2.symm)]
  refine ⟨hused, ?_, ?_⟩
  · show fetch t (workerFinishTM s.tm i w req upd err).tasks = none ∨ _
    rw [htasks]
    exact hstat
  · intro i' w' req' hw' hp'
    have hwe : (workerFinishTM s.tm i w req upd err).workers =
        s.tm.workers.set i { w with phase := .looping } := by
      cases hf : fetch req.id s.tm.tasks <;> simp [workerFinishTM, hf]
    rw [hwe] at hw'
    by_cases hii : i' = i
    · rw [hii, List.get?_set_eq_of_lt _ hlt] at hw'
      rw [← Option.some.inj hw'] at hp'
      exact absurd hp' (by simp)
    · rw [List.get?_set_ne _ _ (fun h => hii h.symm)] at hw'
      exact hnoexec _ _ _ hw' hp'

/-- One step can neither un-cancel a cancel-while-pending task nor hand it to a
worker. -/
theorem quiescent_step {s s' : SysState} (hi : Inv s) (hs : Step s s') (t : String)
    (hq : cancelledQuiescent s t) : cancelledQuiescent s' t := by
  obtain ⟨hused, hstat, hnoexec⟩ := hq
  cases hs with
  | submit ctxC pick cfgT req hfresh =>
    have hne : (normalizeRequest s.tm cfgT req).id ≠ t := by
      rw [normalizeRequest_id]
      intro he
      exact hfresh (he ▸ hused)
    refine ⟨?_, ?_, ?_⟩ <;> rw [submitTask_snd] <;> split <;> dsimp only
    · exact List.mem_cons_of_mem _ hused
    · exact hused
    · rw [fetch_upsert_ne _ _ _ _ (fun he => hne he.symm)]
      exact hstat
    · rw [fetch_removeKey_ne _ _ _ (fun he => hne he.symm),
          fetch_upsert_ne _ _ _ _ (fun he => hne he.symm)]
      exact hstat
    · exact hnoexec
    · exact hnoexec
  | cancel taskID =>
    cases hf : fetch taskID s.tm.tasks with
    | none =>
      have he : (cancelTask s.tm taskID).2 = { s.tm with clock := s.tm.clock + 1 } := by
        simp [cancelTask, hf]
      rw [he]
      exact ⟨hused, hstat, hnoexec⟩
    | some st =>
      by_cases hterm : isTerminalCheck st.status = true
      · have he : (cancelTask s.tm taskID).2 = { s.tm with clock := s.tm.clock + 1 } := by
          simp [cancelTask, hf, hterm]
        rw [he]
        exact ⟨hused, hstat, hnoexec⟩
      · have hne : taskID ≠ t := by
          intro he
          subst he
          rcases hstat with hnone | ⟨st0, hst0, hcanc⟩
          · rw [hf] at hnone; exact absurd hnone (by simp)
          · rw [hf] at hst0
            obtain rfl := Option.some.inj hst0
            rw [hcanc] at hterm
            simp [isTerminalCheck] at hterm
        have he : (cancelTask s.tm taskID).2 =
          { s.tm with
            tasks := upsert taskID
              { st with status := "cancelled", message := "任务已取消",
                        endTime := s.tm.clock + 1 } s.tm.tasks
            workers := s.tm.workers.map (fun w =>
              if w.currentTaskId = some taskID then { w with ctxCancelled := true } else w)
            clock := s.tm.clock + 1 } := by
          simp [cancelTask, hf, hterm]
        rw [he]
        refine ⟨hused, ?_, ?_⟩
        · rw [fetch_upsert_ne _ _ _ _ (fun he2 => hne he2.symm)]
          exact hstat
        · intro i' w' req' hw' hp'
          obtain ⟨w0, hg, hph0, _⟩ := cancelMap_get hw'
          exact hnoexec _ _ _ hg (hph0 ▸ hp')
  | wstart i w hw hex hph =>
    cases hqe : s.tm.queue with
    | nil =>
      have he : workerStart s i = s := by simp [workerStart, hqe]
      rw [he]
      exact ⟨hused, hstat, hnoexec⟩
    | cons req rest =>
      have hwg : s.tm.workers[i]? = some w := by simpa using hw
      obtain ⟨hlt, _⟩ := List.get?_eq_some.mp hw
      cases hfq : fetch req.id s.tm.tasks with
      | none =>
        have he : workerStart s i =
            { s with tm := { s.tm with queue := rest, clock := s.tm.clock + 1 } } := by
          simp [workerStart, hqe, hwg, hfq]
        rw [he]
        exact ⟨hused, hstat, hnoexec⟩
      | some st =>
        by_cases hcs : st.status = "cancelled"
        · have he : workerStart s i =
              { s with tm := { s.tm with queue := rest, clock := s.tm.clock + 1 } } := by
            simp [workerStart, hqe, hwg, hfq, hcs]
          rw [he]
          exact ⟨hused, hstat, hnoexec⟩
        · have hne : req.id ≠ t := by
            intro he
            subst he
            rcases hstat with hnone | ⟨st0, hst0, hcanc⟩
            · rw [hfq] at hnone; exact absurd hnone (by simp)
            · rw [hfq] at hst0
              obtain rfl := Option.some.inj hst0
              exact hcs hcanc
          have he : workerStart s i =
              { s with tm := { s.tm with
                  tasks := upsert req.id
                    { st with status := "running", message := "任务正在执行",
                              startTime := s.tm.clock + 1, progress := (1 : ℚ)/10 } s.tm.tasks
                  workers := s.tm.workers.set i { w with phase := .executing req }
                  queue := rest
                  clock := s.tm.clock + 1 } } := by
            simp [workerStart, hqe, hwg, hfq, hcs]
          rw [he]
          refine ⟨hused, ?_, ?_⟩
          · rw [fetch_upsert_ne _ _ _ _ (fun he2 => hne he2.symm)]
            exact hstat
          · intro i' w' req' hw' hp'
            by_cases hii : i' = i
            · rw [hii, List.get?_set_eq_of_lt _ hlt] at hw'
              have hwv := Option.some.inj hw'
              have hre : req' = req := by
                rw [← hwv] at hp'
                simp only at hp'
                exact (WorkerPhase.executing.inj hp').symm
              rw [hre]
              exact hne
            · rw [List.get?_set_ne _ _ (fun h => hii h.symm)] at hw'
              exact hnoexec _ _ _ hw' hp'
  | wfinish i w req hw hex hph pathOk convOk wslPath isGit opOk branchRes claudeOk
      delRmOk removeOk baseDir =>
    have hwg : s.tm.workers[i]? = some w := by simpa using hw
    have he : workerFinish s i pathOk convOk wslPath isGit opOk branchRes claudeOk
        delRmOk removeOk baseDir =
        { tm := workerFinishTM s.tm i w req
            (workerFinishBody s.wm req pathOk convOk wslPath isGit opOk branchRes
              claudeOk delRmOk removeOk baseDir).1
            (workerFinishBody s.wm req pathOk convOk wslPath isGit opOk branchRes
              claudeOk delRmOk removeOk baseDir).2.1,
          wm := (workerFinishBody s.wm req pathOk convOk wslPath isGit opOk branchRes
              claudeOk delRmOk removeOk baseDir).2.2 } := by
      simp [workerFinish, hwg, hph]
    rw [he]
    exact quiescent_wfinishTM t ⟨hused, hstat, hnoexec⟩ i w req hw hph _ _ _
  | wexit i w hw hex hph hc =>
    have hwg : s.tm.workers[i]? = some w := by simpa using hw
    obtain ⟨hlt, _⟩ := List.get?_eq_some.mp hw
    have he : workerExit s i =
        { s with tm := { s.tm with
            workers := s.tm.workers.set i { w with exited := true } } } := by
      simp [workerExit, hwg]
    rw [he]
    refine ⟨hused, hstat, ?_⟩
    intro i' w' req' hw' hp'
    by_cases hii : i' = i
    · rw [hii, List.get?_set_eq_of_lt _ hlt] at hw'
      rw [← Option.some.inj hw'] at hp'
      simp only at hp'
      rw [hph] at hp'
      exact absurd hp' (by simp)
    · rw [List.get?_set_ne _ _ (fun h => hii h.symm)] at hw'
      exact hnoexec _ _ _ hw' hp'
  | reap =>
    refine ⟨hused, ?_, hnoexec⟩
    cases hfr : fetch t (cleanupCompletedTasks s.tm).tasks with
    | none => exact Or.inl rfl
    | some st'' =>
      have horig : fetch t s.tm.tasks = some st'' :=
        fetch_filter_some hi.tasksKeysNodup hfr
      rcases hstat with hnone | ⟨st0, hst0, hcanc⟩
      · rw [horig] at hnone; exact absurd hnone (by simp)
      · rw [horig] at hst0
        obtain rfl := Option.some.inj hst0
        exact Or.inr ⟨st'', rfl, hcanc⟩
  | sweep removeOk =>
    exact ⟨hused, hstat, hnoexec⟩

/-- Invariant and quiescence carried along any suffix of a run. -/
theorem stepsFrom_quiescent {s s' : SysState} (hi : Inv s) (hsf : StepsFrom s s')
    (t : String) (hq : cancelledQuiescent s t) :
    Inv s' ∧ cancelledQuiescent s' t := by
  induction hsf with
  | refl => exact ⟨hi, hq⟩
  | tail s1 s2 h hs ih => exact ⟨inv_step ih.1 hs, quiescent_step ih.1 hs t ih.2⟩

/-! ### Reachability of the concrete runs -/

theorem reach_sysA : Reachable sysA := Reachable.init 2 1 2

theorem reach_sA1 : Reachable sA1 :=
  Reachable.step _ _ reach_sysA (Step.submit sysA false true none reqT1 (by decide))

theorem reach_sA2 : Reachable sA2 :=
  Reachable.step _ _ reach_sA1 (Step.wstart sA1 0 { wid := 0 } (by decide) rfl rfl)

theorem reach_sA3 : Reachable sA3 :=
  Reachable.step _ _ reach_sA2 (Step.cancel sA2 "t1")

theorem reach_sA4 : Reachable sA4 :=
  Reachable.step _ _ reach_sA3
    (Step.wfinish sA3 0
      { wid := 0, ctxCancelled := true,
        phase := .executing { reqT1 with timeout := thirtyMinutes }, exited := false }
      { reqT1 with timeout := thirtyMinutes }
      (by decide) rfl rfl true true "/mnt/c/proj" true false none true true
      (fun _ => true) "./worktrees")

theorem reach_sB2 : Reachable sB2 := reach_sA2

theorem reach_sB3 : Reachable sB3 :=
  Reachable.step _ _ reach_sB2
    (Step.wfinish sB2 0
      { wid := 0, ctxCancelled := false,
        phase := .executing { reqT1 with timeout := thirtyMinutes }, exited := false }
      { reqT1 with timeout := thirtyMinutes }
      (by decide) rfl rfl true true "/mnt/c/proj" true true (some "main") true true
      (fun _ => true) "./worktrees")

theorem reach_sC1 : Reachable sC1 :=
  Reachable.step _ _ reach_sysA (Step.submit sysA false true none reqTiny (by decide))

theorem reach_sC2 : Reachable sC2 :=
  Reachable.step _ _ reach_sC1 (Step.wstart sC1 0 { wid := 0 } (by decide) rfl rfl)

theorem reach_sC3 : Reachable sC3 :=
  Reachable.step _ _ reach_sC2
    (Step.wfinish sC2 0
      { wid := 0, ctxCancelled := false, phase := .executing reqTiny, exited := false }
      reqTiny (by decide) rfl rfl true true "/mnt/c/proj" true false none true true
      (fun _ => true) "./worktrees")

theorem reach_sD2 : Reachable sD2 :=
  Reachable.step _ _ reach_sA1 (Step.submit sA1 false true none reqT2 (by decide))

theorem reach_sD3 : Reachable sD3 :=
  Reachable.step _ _ reach_sD2 (Step.wstart sD2 0 { wid := 0 } (by decide) rfl rfl)

theorem reach_sD4 : Reachable sD4 :=
  Reachable.step _ _ reach_sD3 (Step.cancel sD3 "t1")

theorem reach_sD5 : Reachable sD5 :=
  Reachable.step _ _ reach_sD4
    (Step.wfinish sD4 0
      { wid := 0, ctxCancelled := true,
        phase := .executing { reqT1 with timeout := thirtyMinutes }, exited := false }
      { reqT1 with timeout := thirtyMinutes }
      (by decide) rfl rfl true true "/mnt/c/proj" true false none true true
      (fun _ => true) "./worktrees")

theorem fetch_filter_keep {α : Type} (p : String × α → Bool) (m : List (String × α))
    (k : String) (v : α) (hf : fetch k m = some v) (hp : p (k, v) = true) :
    fetch k (m.filter p) = some v := by
  induction m with
  | nil => simp [fetch] at hf
  | cons q rest ih =>
    obtain ⟨k', v'⟩ := q
    by_cases hk : k' = k
    · subst hk
      rw [fetch, if_pos rfl] at hf
      obtain rfl := Option.some.inj hf
      rw [List.filter_cons, if_pos hp, fetch, if_pos rfl]
    · rw [fetch, if_neg hk] at hf
      rw [List.filter_cons]
      split
      · rw [fetch, if_neg hk]
        exact ih hf
      · exact ih hf

/-! ### The claims -/

/-- C1 (code bug): terminal statuses are not final.  In run A, CancelTask
succeeds on the task worker 0 is actively executing and marks it "cancelled"
(terminal) — but the worker's post-execution update (executeTask lines
662-673) later overwrites the status to "failed" without re-checking for
cancellation, so the final observed status is "failed", not "cancelled" as the
claim requires. -/
theorem C1_cancelled_overwritten_to_failed :
    Reachable sA4 ∧
    (cancelTask sA2.tm "t1").1 = .ok ∧
    (fetch "t1" sA3.tm.tasks).map TaskStatus.status = some "cancelled" ∧
    (fetch "t1" sA4.tm.tasks).map TaskStatus.status = some "failed" :=
  ⟨reach_sA4, by decide, by decide, by decide⟩

/-- C4 (counterexample): the status domain of the implementation (protocol.go
line 145 and the list_tasks enum) does not contain "timeout", and in run C the
running task whose 1ns deadline expired mid-execution is finalised as
"failed", never "timeout". -/
theorem C4_counterexample :
    "timeout" ∉ taskStatusDomain ∧
    Reachable sC3 ∧
    (fetch "t3" sC3.tm.tasks).map TaskStatus.status = some "failed" ∧
    (fetch "t3" sC3.tm.tasks).map TaskStatus.status ≠ some "timeout" :=
  ⟨by decide, reach_sC3, by decide, by decide⟩

/-- C4 (amended): the task status domain is {pending, running, completed,
failed, cancelled}; in every reachable state every task status lies in it — so
the status "timeout" is never reached — and a running task whose execution
exceeds its configured timeout is finalised as "failed" with the wrapped error
recorded (run C). -/
theorem C4_amended_no_timeout_status {s : SysState} (h : Reachable s) :
    (∀ id st, fetch id s.tm.tasks = some st →
        st.status ∈ taskStatusDomain ∧ st.status ≠ "timeout") ∧
    (fetch "t3" sC3.tm.tasks).map TaskStatus.status = some "failed" ∧
    (fetch "t3" sC3.tm.tasks).map TaskStatus.error = some (some .worktreeFailed) := by
  refine ⟨?_, by decide, by decide⟩
  intro id st hf
  have hdom := (reachable_inv h).statusInDomain _ _ hf
  refine ⟨hdom, ?_⟩
  intro he
  rw [he] at hdom
  simp [taskStatusDomain] at hdom

/-- Witness for C4 (amended), at the deadline-exceeded run itself. -/
theorem C4_amended_no_timeout_status_witness :
    (∀ id st, fetch id sC3.tm.tasks = some st →
        st.status ∈ taskStatusDomain ∧ st.status ≠ "timeout") ∧
    (fetch "t3" sC3.tm.tasks).map TaskStatus.status = some "failed" ∧
    (fetch "t3" sC3.tm.tasks).map TaskStatus.error = some (some .worktreeFailed) :=
  C4_amended_no_timeout_status reach_sC3

/-- C7 (code bug): after its allocating task completes (run B), the workspace
keeps status "active" forever.  The only assignment of "idle" in the code is
the start-up rescan (scanExistingWorktrees), nothing releases a workspace when
its task reaches a terminal status, and the TTL sweep deletes only "idle"
entries — so no sweep, at any time and with any removal oracle, ever touches
it. -/
theorem C7_workspace_never_idle :
    Reachable sB3 ∧
    (fetch "t1" sB3.tm.tasks).map TaskStatus.status = some "completed" ∧
    (fetch "t1" sB3.tm.tasks).map TaskStatus.worktreeID = some "wt_1" ∧
    (fetch "wt_1" sB3.wm.worktrees).map WorktreeInfo.status = some "active" ∧
    (∀ (now : Nat) (removeOk : String → Bool),
        (fetch "wt_1" (cleanupIdleWorktrees sB3.wm now removeOk).worktrees).map
          WorktreeInfo.status = some "active") := by
  refine ⟨reach_sB3, by decide, by decide, by decide, ?_⟩
  intro now removeOk
  have hf : fetch "wt_1" sB3.wm.worktrees = some
      { id := "wt_1", projectPath := "C:\\proj", wslPath := "/mnt/.worktrees/wt_1",
        branch := "main", createdAt := 1, lastUsed := 1, status := "active" } := by
    decide
  have he : (cleanupIdleWorktrees sB3.wm now removeOk).worktrees =
      sB3.wm.worktrees.filter (fun p =>
        ! (decide (p.2.status = "idle") && decide (p.2.lastUsed < now - worktreeIdleTTL)
            && removeOk p.1)) := rfl
  rw [he, fetch_filter_keep _ _ _ _ hf (by simp)]
  rfl

/-- C10 (counterexample): the claim says a worker whose per-task cancellation
scope was cancelled "never dequeues or executes another task"; but the run
loop's select races ctx.Done against the queue, so in run D the cancelled (not
yet exited) worker 0 legally dequeues and starts executing t2. -/
theorem C10_counterexample :
    Reachable sD5 ∧
    (sD5.tm.workers.get? 0).map Worker.ctxCancelled = some true ∧
    (sD5.tm.workers.get? 0).map Worker.exited = some false ∧
    Step sD5 sD6 ∧
    (sD6.tm.workers.get? 0).map Worker.currentTaskId = some (some "t2") :=
  ⟨reach_sD5, by decide, by decide,
   Step.wstart sD5 0 { wid := 0, ctxCancelled := true, phase := .looping, exited := false }
     (by decide) rfl rfl,
   by decide⟩

/-- C2: SubmitTask fails synchronously with the queue-full error when the
bounded queue is saturated and the caller's context is alive; it fails with
the caller's cancellation error when the context is cancelled and the enqueue
does not win the select; in both failure cases the task table and the queue
are left unchanged (the just-registered pending entry is removed again); and
on success it returns the initial pending status snapshot, now registered in
the table with its request appended to the queue.  The freshness hypothesis is
the spec's ID-uniqueness invariant ("ID is immutable and globally unique"). -/
theorem C2_submit_semantics (tm : TMState) (ctxC pick : Bool) (cfgT : Option Nat)
    (req : TaskRequest) (hfresh : fetch (effectiveId tm req) tm.tasks = none) :
    ((tm.queueMax ≤ tm.queue.length ∧ ctxC = false) →
        (submitTask tm ctxC pick cfgT req).1 = .queueFull ∧
        (submitTask tm ctxC pick cfgT req).2.tasks = tm.tasks ∧
        (submitTask tm ctxC pick cfgT req).2.queue = tm.queue) ∧
    ((ctxC = true ∧ (tm.queueMax ≤ tm.queue.length ∨ pick = false)) →
        (submitTask tm ctxC pick cfgT req).1 = .ctxErr ∧
        (submitTask tm ctxC pick cfgT req).2.tasks = tm.tasks ∧
        (submitTask tm ctxC pick cfgT req).2.queue = tm.queue) ∧
    (∀ st, (submitTask tm ctxC pick cfgT req).1 = .ok st →
        st = pendingSnapshot (effectiveId tm req) ∧
        st.status = "pending" ∧ st.endTime = 0 ∧ st.progress = 0 ∧
        fetch (effectiveId tm req) (submitTask tm ctxC pick cfgT req).2.tasks = some st ∧
        (submitTask tm ctxC pick cfgT req).2.queue
          = tm.queue ++ [normalizeRequest tm cfgT req]) := by
  have hid : (normalizeRequest tm cfgT req).id = effectiveId tm req :=
    normalizeRequest_id tm cfgT req
  have hfresh' : fetch (normalizeRequest tm cfgT req).id tm.tasks = none := by
    rw [hid]; exact hfresh
  have hrem : removeKey (normalizeRequest tm cfgT req).id
      (upsert (normalizeRequest tm cfgT req).id
        (pendingSnapshot (normalizeRequest tm cfgT req).id) tm.tasks) = tm.tasks :=
    removeKey_upsert_fresh _ _ _ hfresh'
  refine ⟨?_, ?_, ?_⟩
  · rintro ⟨hsat, hctx⟩
    have hcond : ¬ (tm.queue.length < tm.queueMax ∧ (ctxC = false ∨ pick = true)) := by
      rintro ⟨hlt, _⟩
      exact absurd hlt (Nat.not_lt.mpr hsat)
    rw [submitTask_fst, submitTask_snd, if_neg hcond, if_neg hcond]
    rw [hctx]
    exact ⟨by simp, hrem, rfl⟩
  · rintro ⟨hctx, hrest⟩
    have hcond : ¬ (tm.queue.length < tm.queueMax ∧ (ctxC = false ∨ pick = true)) := by
      rintro ⟨hlt, hor⟩
      rcases hor with h | h
      · rw [hctx] at h; exact absurd h (by simp)
      · rcases hrest with h2 | h2
        · exact absurd hlt (Nat.not_lt.mpr h2)
        · rw [h] at h2; exact absurd h2 (by simp)
    rw [submitTask_fst, submitTask_snd, if_neg hcond, if_neg hcond, if_pos hctx]
    exact ⟨rfl, hrem, rfl⟩
  · intro st hok
    rw [submitTask_fst] at hok
    rw [submitTask_snd]
    by_cases hcond : tm.queue.length < tm.queueMax ∧ (ctxC = false ∨ pick = true)
    · rw [if_pos hcond] at hok
      rw [if_pos hcond]
      obtain rfl := (SubmitResult.ok.inj hok).symm
      refine ⟨by rw [hid], rfl, rfl, rfl, ?_, rfl⟩
      rw [← hid]
      exact fetch_upsert_self _ _ _
    · rw [if_neg hcond] at hok
      split at hok <;> exact absurd hok (by simp)

/-- Witness for C2: queue capacity 0 is already saturated (queue-full), a
cancelled caller fails with its own error, and a normal submit succeeds with
the pending snapshot. -/
theorem C2_submit_semantics_witness :
    (fetch (effectiveId { queueMax := 0 } reqT1) ({ queueMax := 0 } : TMState).tasks
        = none) ∧
    (({ queueMax := 0 } : TMState).queueMax ≤ ({ queueMax := 0 } : TMState).queue.length
        ∧ false = false) ∧
    ((submitTask { queueMax := 0 } false true none reqT1).1 = .queueFull ∧
     (submitTask { queueMax := 0 } false true none reqT1).2.tasks
        = ({ queueMax := 0 } : TMState).tasks ∧
     (submitTask { queueMax := 0 } false true none reqT1).2.queue
        = ({ queueMax := 0 } : TMState).queue) :=
  ⟨by decide, by decide,
   (C2_submit_semantics { queueMax := 0 } false true none reqT1 (by decide)).1
     (by decide)⟩

/-- Every WorktreeManager API call keeps the pool within its configured
bound. -/
theorem wmstep_bound {wm wm' : WMState} (hs : WMStep wm wm')
    (ih : wm.worktrees.length ≤ wm.maxWorktrees) :
    wm'.worktrees.length ≤ wm'.maxWorktrees := by
  cases hs with
  | create baseDir projectPath isGit opOk branchRes removeOk =>
    have hclean : (cleanupIdleWorktrees wm (wm.clock + 1) removeOk).worktrees.length
        ≤ wm.worktrees.length := List.length_filter_le _ _
    by_cases h1 : wm.maxWorktrees ≤ wm.worktrees.length
    · by_cases h2 : wm.maxWorktrees
          ≤ (cleanupIdleWorktrees wm (wm.clock + 1) removeOk).worktrees.length
      · simp only [createWorktree]
        rw [if_pos h1, if_pos h2]
        exact le_trans hclean ih
      · by_cases h3 : opOk = false
        · simp only [createWorktree]
          rw [if_pos h1, if_neg h2, if_pos h3]
          exact le_trans hclean ih
        · simp only [createWorktree]
          rw [if_pos h1, if_neg h2, if_neg h3]
          refine le_trans (length_upsert_le _ _ _) ?_
          exact Nat.not_le.mp h2
    · by_cases h3 : opOk = false
      · simp only [createWorktree]
        rw [if_neg h1, if_neg h1, if_pos h3]
        exact ih
      · simp only [createWorktree]
        rw [if_neg h1, if_neg h1, if_neg h3]
        refine le_trans (length_upsert_le _ _ _) ?_
        exact Nat.not_le.mp h1
  | del worktreeID rmOk =>
    cases hf : fetch worktreeID wm.worktrees with
    | none =>
      have he : (deleteWorktree wm worktreeID rmOk).2 = { wm with clock := wm.clock + 1 } := by
        simp [deleteWorktree, hf]
      rw [he]
      exact ih
    | some wt =>
      by_cases hrm : rmOk = false
      · have he : (deleteWorktree wm worktreeID rmOk).2 =
            { wm with clock := wm.clock + 1 } := by
          simp [deleteWorktree, hf, hrm]
        rw [he]
        exact ih
      · have he : (deleteWorktree wm worktreeID rmOk).2 =
            { wm with worktrees := removeKey worktreeID wm.worktrees,
                      clock := wm.clock + 1 } := by
          simp [deleteWorktree, hf, hrm]
        rw [he]
        exact le_trans (length_removeKey_le _ _) ih
  | get worktreeID =>
    cases hf : fetch worktreeID wm.worktrees with
    | none =>
      have he : (getWorktree wm worktreeID).2 = { wm with clock := wm.clock + 1 } := by
        simp [getWorktree, hf]
      rw [he]
      exact ih
    | some wt =>
      have he : (getWorktree wm worktreeID).2 =
          { wm with worktrees := upsert worktreeID { wt with lastUsed := wm.clock + 1 }
                      wm.worktrees,
                    clock := wm.clock + 1 } := by
        simp [getWorktree, hf]
      rw [he]
      calc (upsert worktreeID { wt with lastUsed := wm.clock + 1 } wm.worktrees).length
          = wm.worktrees.length := length_upsert_present _ _ hf
        _ ≤ wm.maxWorktrees := ih
  | cleanup removeOk =>
    exact le_trans (List.length_filter_le _ _) ih

/-- C3: in every reachable pool state the number of live workspaces is at most
the configured maximum; and a CreateWorktree call made at that maximum first
runs the idle-TTL eviction and, when the pool is still full afterwards, fails
with the pool-exhausted error while creating nothing (the resulting inventory
is exactly the post-eviction one). -/
theorem C3_pool_bounded :
    (∀ wm, ReachableWM wm → wm.worktrees.length ≤ wm.maxWorktrees) ∧
    (∀ wm baseDir projectPath isGit opOk branchRes (removeOk : String → Bool),
       wm.maxWorktrees ≤ wm.worktrees.length →
       ((cleanupIdleWorktrees wm (wm.clock + 1) removeOk).worktrees.length
           < wm.maxWorktrees) ∨
       ((createWorktree wm baseDir projectPath isGit opOk branchRes removeOk).1
           = .poolExhausted ∧
        (createWorktree wm baseDir projectPath isGit opOk branchRes removeOk).2.worktrees
           = (cleanupIdleWorktrees wm (wm.clock + 1) removeOk).worktrees)) := by
  constructor
  · intro wm hr
    induction hr with
    | init wm h => exact h
    | step wm wm' hr hs ih => exact wmstep_bound hs ih
  · intro wm baseDir projectPath isGit opOk branchRes removeOk hsat
    by_cases h2 : wm.maxWorktrees
        ≤ (cleanupIdleWorktrees wm (wm.clock + 1) removeOk).worktrees.length
    · right
      constructor
      · simp only [createWorktree]
        rw [if_pos hsat, if_pos h2]
      · simp only [createWorktree]
        rw [if_pos hsat, if_pos h2]
    · exact Or.inl (Nat.not_le.mp h2)

/-- Witness for C3: the empty pool with capacity 2 is reachable and within
bound; a capacity-0 pool is saturated and fails with pool-exhausted. -/
theorem C3_pool_bounded_witness :
    (({ maxWorktrees := 2 } : WMState).worktrees.length
        ≤ ({ maxWorktrees := 2 } : WMState).maxWorktrees) ∧
    (({ maxWorktrees := 0 } : WMState).maxWorktrees
        ≤ ({ maxWorktrees := 0 } : WMState).worktrees.length) ∧
    ((cleanupIdleWorktrees { maxWorktrees := 0 } 1 (fun _ => true)).worktrees.length
        < ({ maxWorktrees := 0 } : WMState).maxWorktrees ∨
     ((createWorktree { maxWorktrees := 0 } "./worktrees" "C:\\proj" true true none
          (fun _ => true)).1 = .poolExhausted ∧
      (createWorktree { maxWorktrees := 0 } "./worktrees" "C:\\proj" true true none
          (fun _ => true)).2.worktrees
        = (cleanupIdleWorktrees { maxWorktrees := 0 } 1 (fun _ => true)).worktrees)) :=
  ⟨C3_pool_bounded.1 { maxWorktrees := 2 } (ReachableWM.init _ (by decide)), by decide,
   C3_pool_bounded.2 { maxWorktrees := 0 } "./worktrees" "C:\\proj" true true none
     (fun _ => true) (by decide)⟩

/-- C5: in every reachable state, a task's EndTime is set (non-zero) exactly
when its status is terminal (completed / failed / cancelled / timeout — the
last being unreachable); pending and running tasks always have an unset
EndTime. -/
theorem C5_endTime_iff_terminal {s : SysState} (h : Reachable s) :
    ∀ id st, fetch id s.tm.tasks = some st →
      (isTerminalStatus st.status ↔ st.endTime ≠ 0) ∧
      (st.status = "pending" ∨ st.status = "running" → st.endTime = 0) := by
  intro id st hf
  have hi := reachable_inv h
  have hdom := hi.statusInDomain _ _ hf
  have hiff := hi.endTimeIff _ _ hf
  have hcheck : isTerminalStatus st.status ↔ isTerminalCheck st.status = true := by
    unfold isTerminalStatus isTerminalCheck
    constructor
    · rintro (h1 | h1 | h1 | h1)
      · simp [h1]
      · simp [h1]
      · simp [h1]
      · rw [h1] at hdom
        simp [taskStatusDomain] at hdom
    · intro h1
      simp only [decide_eq_true_eq] at h1
      tauto
  refine ⟨by rw [hcheck]; exact hiff, ?_⟩
  intro hpr
  by_contra hne
  have h2 := hiff.mpr hne
  rcases hpr with h1 | h1 <;> rw [h1] at h2 <;> simp [isTerminalCheck] at h2

/-- Witness for C5, at the completed run B: t1 ended "completed" with
EndTime 3. -/
theorem C5_endTime_iff_terminal_witness :
    fetch "t1" sB3.tm.tasks = some
      { id := "t1", status := "completed", progress := 1, message := "任务执行成功",
        result := [("wslPath", "/mnt/c/proj"), ("worktreeId", "wt_1"),
                   ("projectPath", "C:\\proj")],
        error := none, startTime := 2, endTime := 3, worktreeID := "wt_1" } ∧
    ((isTerminalStatus "completed" ↔ (3 : Nat) ≠ 0) ∧
     (("completed" : String) = "pending" ∨ ("completed" : String) = "running" →
        (3 : Nat) = 0)) :=
  ⟨by rfl,
   C5_endTime_iff_terminal reach_sB3 "t1"
     { id := "t1", status := "completed", progress := 1, message := "任务执行成功",
       result := [("wslPath", "/mnt/c/proj"), ("worktreeId", "wt_1"),
                  ("projectPath", "C:\\proj")],
       error := none, startTime := 2, endTime := 3, worktreeID := "wt_1" }
     (by rfl)⟩

/-- C6: cancelling a still-pending task succeeds, moves it straight to
"cancelled", and the task never reaches "running": in every state reachable
from the cancellation its entry is either reaped or still "cancelled" (a
worker that later dequeues its request re-checks the canonical status and
skips execution). -/
theorem C6_cancel_pending {s : SysState} (h : Reachable s) (t : String)
    (st : TaskStatus) (hf : fetch t s.tm.tasks = some st)
    (hpend : st.status = "pending") :
    (cancelTask s.tm t).1 = .ok ∧
    (∃ st', fetch t (cancelTask s.tm t).2.tasks = some st' ∧
       st'.status = "cancelled") ∧
    (∀ s', StepsFrom { s with tm := (cancelTask s.tm t).2 } s' →
       ∀ st', fetch t s'.tm.tasks = some st' → st'.status = "cancelled") := by
  have hi := reachable_inv h
  have hterm : isTerminalCheck st.status = false := by rw [hpend]; decide
  have hterm' : ¬ isTerminalCheck st.status = true := by simp [hterm]
  have h1 : (cancelTask s.tm t).1 = .ok := by simp [cancelTask, hf, hterm']
  have he : (cancelTask s.tm t).2 =
      { s.tm with
        tasks := upsert t
          { st with status := "cancelled", message := "任务已取消",
                    endTime := s.tm.clock + 1 } s.tm.tasks
        workers := s.tm.workers.map (fun w =>
          if w.currentTaskId = some t then { w with ctxCancelled := true } else w)
        clock := s.tm.clock + 1 } := by
    simp [cancelTask, hf, hterm']
  have hnoexec0 : ∀ i w req', s.tm.workers.get? i = some w →
      w.phase = .executing req' → req'.id ≠ t := by
    intro i w req' hwg hp heq
    rcases hi.execStatus i w req' hwg hp with hnone | ⟨st0, hst0, hrun⟩
    · rw [heq, hf] at hnone
      exact absurd hnone (by simp)
    · rw [heq, hf] at hst0
      obtain rfl := Option.some.inj hst0
      rcases hrun with h2 | h2 <;> rw [hpend] at h2 <;> exact absurd h2 (by decide)
  have hq : cancelledQuiescent { s with tm := (cancelTask s.tm t).2 } t := by
    refine ⟨?_, ?_, ?_⟩
    · show t ∈ (cancelTask s.tm t).2.usedIds
      rw [he]
      exact hi.usedTasks _ _ hf
    · show fetch t (cancelTask s.tm t).2.tasks = none ∨ _
      rw [he]
      exact Or.inr ⟨_, fetch_upsert_self _ _ _, rfl⟩
    · intro i w' req' hw' hp'
      rw [show ({ s with tm := (cancelTask s.tm t).2 } : SysState).tm.workers
            = (cancelTask s.tm t).2.workers from rfl, he] at hw'
      obtain ⟨w, hg, hph0, _⟩ := cancelMap_get hw'
      exact hnoexec0 _ _ _ hg (hph0 ▸ hp')
  have hinv' : Inv { s with tm := (cancelTask s.tm t).2 } :=
    inv_step hi (Step.cancel s t)
  refine ⟨h1, ?_, ?_⟩
  · rw [he]
    exact ⟨_, fetch_upsert_self _ _ _, rfl⟩
  · intro s' hsf st' hf'
    have hq' := (stepsFrom_quiescent hinv' hsf t hq).2
    rcases hq'.2.1 with hnone | ⟨st0, hst0, hcanc⟩
    · rw [hf'] at hnone
      exact absurd hnone (by simp)
    · rw [hf'] at hst0
      obtain rfl := Option.some.inj hst0
      exact hcanc

/-- Witness for C6: cancelling the still-pending t1 right after submission in
run A. -/
theorem C6_cancel_pending_witness :
    (fetch "t1" sA1.tm.tasks).map TaskStatus.status = some "pending" ∧
    (cancelTask sA1.tm "t1").1 = .ok ∧
    (∃ st', fetch "t1" (cancelTask sA1.tm "t1").2.tasks = some st' ∧
       st'.status = "cancelled") := by
  have h := C6_cancel_pending reach_sA1 "t1" (pendingSnapshot "t1") (by decide) rfl
  exact ⟨by decide, h.1, h.2.1⟩

/-- C8: Initialize rejects every protocol version other than the supported
"2024-11-05" with the protocol-mismatch error and mutates no state; for the
supported version it returns that version together with the server's
capabilities and identity, again without mutation. -/
theorem C8_initialize_semantics (s : SysState) (req : InitializeRequest) :
    (req.protocolVersion ≠ MCPVersion →
        (initializeOn s req).1 = .error .mcpProtocolError ∧
        (initializeOn s req).2 = s) ∧
    (req.protocolVersion = MCPVersion →
        (initializeOn s req).1 = .ok { protocolVersion := MCPVersion,
                                       capabilities := handlerCapabilities,
                                       serverInfo := handlerServerInfo } ∧
        (initializeOn s req).2 = s) := by
  constructor
  · intro h
    exact ⟨by simp [initializeOn, mcpInitialize, h], rfl⟩
  · intro h
    exact ⟨by simp [initializeOn, mcpInitialize, h], rfl⟩

/-- Witness for C8: an unsupported version string and the supported one. -/
theorem C8_initialize_semantics_witness :
    (("1.0" : String) ≠ MCPVersion ∧
     (initializeOn sysA { protocolVersion := "1.0" }).1 = .error .mcpProtocolError ∧
     (initializeOn sysA { protocolVersion := "1.0" }).2 = sysA) ∧
    ((initializeOn sysA { protocolVersion := "2024-11-05" }).1
        = .ok { protocolVersion := MCPVersion, capabilities := handlerCapabilities,
                serverInfo := handlerServerInfo } ∧
     (initializeOn sysA { protocolVersion := "2024-11-05" }).2 = sysA) :=
  ⟨⟨by decide, (C8_initialize_semantics sysA { protocolVersion := "1.0" }).1 (by decide)⟩,
   (C8_initialize_semantics sysA { protocolVersion := "2024-11-05" }).2 (by decide)⟩

theorem append_ne_empty_left (a b : String) (h : a ≠ "") : a ++ b ≠ "" := by
  intro hc
  have hd : a.data ++ b.data = ([] : List Char) := congrArg String.data hc
  rcases List.append_eq_nil.mp hd with ⟨ha, _⟩
  exact h (congrArg String.mk ha)

/-- C9: CallTool surfaces bad input as soft per-call error results: for a
missing/empty required string argument (projectPath for execute_claude_code,
taskId for get_task_status / cancel_task) or an unknown tool name, the result
payload carries IsError with human-readable text, the Go error return is nil —
never a protocol-level error — and the system state is untouched. -/
theorem C9_callTool_soft_errors (s : SysState) (name : String)
    (args : List (String × JSONValue)) (parseDur : String → Option Nat)
    (ctxC pick : Bool) (cfgT : Option Nat)
    (h : (name = "execute_claude_code" ∧ missingStringArg args "projectPath") ∨
         ((name = "get_task_status" ∨ name = "cancel_task") ∧
            missingStringArg args "taskId") ∨
         ¬ name ∈ knownToolNames) :
    (callTool s name args parseDur ctxC pick cfgT).1.1.isError = true ∧
    (callTool s name args parseDur ctxC pick cfgT).1.2 = none ∧
    (∃ c ∈ (callTool s name args parseDur ctxC pick cfgT).1.1.content, c.text ≠ "") ∧
    (callTool s name args parseDur ctxC pick cfgT).2 = s := by
  rcases h with ⟨hn, hm⟩ | ⟨hn, hm⟩ | hn
  · subst hn
    rcases hm with hm | hm
    · have he : callTool s "execute_claude_code" args parseDur ctxC pick cfgT =
          (({ content := [{ type := "text", text := "缺少必需参数: projectPath" }],
              isError := true }, none), s) := by
        simp [callTool, handleExecuteClaudeCode, hm]
      rw [he]
      exact ⟨rfl, rfl, ⟨_, List.mem_singleton.mpr rfl, by decide⟩, rfl⟩
    · have he : callTool s "execute_claude_code" args parseDur ctxC pick cfgT =
          (({ content := [{ type := "text", text := "缺少必需参数: projectPath" }],
              isError := true }, none), s) := by
        simp [callTool, handleExecuteClaudeCode, hm]
      rw [he]
      exact ⟨rfl, rfl, ⟨_, List.mem_singleton.mpr rfl, by decide⟩, rfl⟩
  · have hmt : ∀ x, missingStringArg args "taskId" →
        (x = handleGetTaskStatus s args ∨ x = handleCancelTask s args) →
        x = (({ content := [{ type := "text", text := "缺少必需参数: taskId" }],
                isError := true }, none), s) := by
      rintro x hm' (rfl | rfl) <;> rcases hm' with hm' | hm' <;>
        simp [handleGetTaskStatus, handleCancelTask, hm']
    rcases hn with hn | hn
    · subst hn
      have he : callTool s "get_task_status" args parseDur ctxC pick cfgT =
          (({ content := [{ type := "text", text := "缺少必需参数: taskId" }],
              isError := true }, none), s) := by
        have h2 := hmt (handleGetTaskStatus s args) hm (Or.inl rfl)
        simpa [callTool] using h2
      rw [he]
      exact ⟨rfl, rfl, ⟨_, List.mem_singleton.mpr rfl, by decide⟩, rfl⟩
    · subst hn
      have he : callTool s "cancel_task" args parseDur ctxC pick cfgT =
          (({ content := [{ type := "text", text := "缺少必需参数: taskId" }],
              isError := true }, none), s) := by
        have h2 := hmt (handleCancelTask s args) hm (Or.inr rfl)
        simpa [callTool] using h2
      rw [he]
      exact ⟨rfl, rfl, ⟨_, List.mem_singleton.mpr rfl, by decide⟩, rfl⟩
  · simp only [knownToolNames, List.mem_cons, List.not_mem_nil, or_false] at hn
    push_neg at hn
    obtain ⟨h1, h2, h3, h4⟩ := hn
    have he : callTool s name args parseDur ctxC pick cfgT =
        (({ content := [{ type := "text", text := "未知工具: " ++ name }],
            isError := true }, none), s) := by
      simp [callTool, h1, h2, h3, h4]
    rw [he]
    exact ⟨rfl, rfl, ⟨_, List.mem_singleton.mpr rfl,
      append_ne_empty_left _ _ (by decide)⟩, rfl⟩

/-- Witness for C9: an unknown tool name on the fresh system. -/
theorem C9_callTool_soft_errors_witness :
    (¬ ("bogus_tool" : String) ∈ knownToolNames) ∧
    ((callTool sysA "bogus_tool" [] (fun _ => none) false true none).1.1.isError = true ∧
     (callTool sysA "bogus_tool" [] (fun _ => none) false true none).1.2 = none ∧
     (∃ c ∈ (callTool sysA "bogus_tool" [] (fun _ => none) false true none).1.1.content,
        c.text ≠ "") ∧
     (callTool sysA "bogus_tool" [] (fun _ => none) false true none).2 = sysA) :=
  ⟨by decide,
   C9_callTool_soft_errors sysA "bogus_tool" [] (fun _ => none) false true none
     (Or.inr (Or.inr (by decide)))⟩

theorem submitTask_workers (tm : TMState) (ctxC pick : Bool) (cfgT : Option Nat)
    (req : TaskRequest) : (submitTask tm ctxC pick cfgT req).2.workers = tm.workers := by
  rw [submitTask_snd]
  split <;> rfl

/-- Per-worker effect of one step: cancellation of the run-loop context is
permanent and an exited worker never changes again. -/
theorem worker_mono_step {s s' : SysState} (hi : Inv s) (hs : Step s s') (i : Nat)
    (w w' : Worker) (hw : s.tm.workers.get? i = some w)
    (hw' : s'.tm.workers.get? i = some w') :
    (w.ctxCancelled = true → w'.ctxCancelled = true) ∧ (w.exited = true → w' = w) := by
  cases hs with
  | submit ctxC pick cfgT req hfresh =>
    rw [show ({ s with tm := (submitTask s.tm ctxC pick cfgT req).2 } : SysState).tm.workers
          = (submitTask s.tm ctxC pick cfgT req).2.workers from rfl,
        submitTask_workers, hw] at hw'
    obtain rfl := (Option.some.inj hw').symm
    exact ⟨fun h => h, fun _ => rfl⟩
  | cancel taskID =>
    cases hf : fetch taskID s.tm.tasks with
    | none =>
      have he : (cancelTask s.tm taskID).2 = { s.tm with clock := s.tm.clock + 1 } := by
        simp [cancelTask, hf]
      rw [show ({ s with tm := (cancelTask s.tm taskID).2 } : SysState).tm.workers
            = (cancelTask s.tm taskID).2.workers from rfl, he, hw] at hw'
      obtain rfl := (Option.some.inj hw').symm
      exact ⟨fun h => h, fun _ => rfl⟩
    | some st =>
      by_cases hterm : isTerminalCheck st.status = true
      · have he : (cancelTask s.tm taskID).2 = { s.tm with clock := s.tm.clock + 1 } := by
          simp [cancelTask, hf, hterm]
        rw [show ({ s with tm := (cancelTask s.tm taskID).2 } : SysState).tm.workers
              = (cancelTask s.tm taskID).2.workers from rfl, he, hw] at hw'
        obtain rfl := (Option.some.inj hw').symm
        exact ⟨fun h => h, fun _ => rfl⟩
      · have he : (cancelTask s.tm taskID).2.workers =
            s.tm.workers.map (fun w =>
              if w.currentTaskId = some taskID then { w with ctxCancelled := true } else w) := by
          simp [cancelTask, hf, hterm]
        rw [show ({ s with tm := (cancelTask s.tm taskID).2 } : SysState).tm.workers
              = (cancelTask s.tm taskID).2.workers from rfl, he, List.get?_map, hw] at hw'
        have hwv : w' = (if w.currentTaskId = some taskID
            then { w with ctxCancelled := true } else w) := (Option.some.inj hw').symm
        constructor
        · intro hc
          rw [hwv]
          split
          · rfl
          · exact hc
        · intro hex
          have hlp := hi.exitedLooping _ _ hw hex
          have hcur : w.currentTaskId = none := by
            simp [Worker.currentTaskId, hlp]
          rw [hwv, hcur]
          simp
  | wstart i0 w0 hw0 hex0 hph0 =>
    have hwg : s.tm.workers[i0]? = some w0 := by simpa using hw0
    obtain ⟨hlt, _⟩ := List.get?_eq_some.mp hw0
    have hset : ∀ req : TaskRequest,
        (s.tm.workers.set i0 { w0 with phase := .executing req }).get? i = some w' →
        (w.ctxCancelled = true → w'.ctxCancelled = true) ∧ (w.exited = true → w' = w) := by
      intro req hw2
      by_cases hii : i = i0
      · subst hii
        rw [List.get?_set_eq_of_lt _ hlt] at hw2
        rw [hw] at hw0
        obtain rfl := Option.some.inj hw0
        obtain rfl := (Option.some.inj hw2).symm
        exact ⟨fun h => h, fun hex => absurd (hex0 ▸ hex) (by simp)⟩
      · rw [List.get?_set_ne _ _ (fun h2 => hii h2.symm), hw] at hw2
        obtain rfl := (Option.some.inj hw2).symm
        exact ⟨fun h => h, fun _ => rfl⟩
    have hid : (workerStart s i0).tm.workers = s.tm.workers →
        (w.ctxCancelled = true → w'.ctxCancelled = true) ∧ (w.exited = true → w' = w) := by
      intro he
      rw [he, hw] at hw'
      obtain rfl := (Option.some.inj hw').symm
      exact ⟨fun h => h, fun _ => rfl⟩
    cases hqe : s.tm.queue with
    | nil => exact hid (by simp [workerStart, hqe])
    | cons req rest =>
      cases hfq : fetch req.id s.tm.tasks with
      | none => exact hid (by simp [workerStart, hqe, hwg, hfq])
      | some st =>
        by_cases hcs : st.status = "cancelled"
        · exact hid (by simp [workerStart, hqe, hwg, hfq, hcs])
        · have he : (workerStart s i0).tm.workers =
              s.tm.workers.set i0 { w0 with phase := .executing req } := by
            simp [workerStart, hqe, hwg, hfq, hcs]
          rw [he] at hw'
          exact hset req hw'
  | wfinish i0 w0 req hw0 hex0 hph0 pathOk convOk wslPath isGit opOk branchRes claudeOk
      delRmOk removeOk baseDir =>
    have hwg : s.tm.workers[i0]? = some w0 := by simpa using hw0
    obtain ⟨hlt, _⟩ := List.get?_eq_some.mp hw0
    have he : (workerFinish s i0 pathOk convOk wslPath isGit opOk branchRes claudeOk
        delRmOk removeOk baseDir).tm.workers =
        s.tm.workers.set i0 { w0 with phase := .looping } := by
      cases hf : fetch req.id s.tm.tasks <;>
        simp [workerFinish, hwg, hph0, workerFinishTM, hf]
    rw [he] at hw'
    by_cases hii : i = i0
    · subst hii
      rw [List.get?_set_eq_of_lt _ hlt] at hw'
      rw [hw] at hw0
      obtain rfl := Option.some.inj hw0
      obtain rfl := (Option.some.inj hw').symm
      exact ⟨fun h => h, fun hex => absurd (hex0 ▸ hex) (by simp)⟩
    · rw [List.get?_set_ne _ _ (fun h2 => hii h2.symm), hw] at hw'
      obtain rfl := (Option.some.inj hw').symm
      exact ⟨fun h => h, fun _ => rfl⟩
  | wexit i0 w0 hw0 hex0 hph0 hc =>
    have hwg : s.tm.workers[i0]? = some w0 := by simpa using hw0
    obtain ⟨hlt, _⟩ := List.get?_eq_some.mp hw0
    have he : (workerExit s i0).tm.workers =
        s.tm.workers.set i0 { w0 with exited := true } := by
      simp [workerExit, hwg]
    rw [he] at hw'
    by_cases hii : i = i0
    · subst hii
      rw [List.get?_set_eq_of_lt _ hlt] at hw'
      rw [hw] at hw0
      obtain rfl := Option.some.inj hw0
      obtain rfl := (Option.some.inj hw').symm
      exact ⟨fun h => h, fun hex => absurd (hex0 ▸ hex) (by simp)⟩
    · rw [List.get?_set_ne _ _ (fun h2 => hii h2.symm), hw] at hw'
      obtain rfl := (Option.some.inj hw').symm
      exact ⟨fun h => h, fun _ => rfl⟩
  | reap =>
    rw [show ({ s with tm := cleanupCompletedTasks s.tm } : SysState).tm.workers
          = s.tm.workers from rfl, hw] at hw'
    obtain rfl := (Option.some.inj hw').symm
    exact ⟨fun h => h, fun _ => rfl⟩
  | sweep removeOk =>
    rw [show ({ s with wm := cleanupWorktrees s.wm removeOk } : SysState).tm.workers
          = s.tm.workers from rfl, hw] at hw'
    obtain rfl := (Option.some.inj hw').symm
    exact ⟨fun h => h, fun _ => rfl⟩

/-- A step never changes the size of the worker pool. -/
theorem step_workers_length {s s' : SysState} (hs : Step s s') :
    s'.tm.workers.length = s.tm.workers.length := by
  cases hs with
  | submit ctxC pick cfgT req hfresh =>
    exact congrArg List.length (submitTask_workers s.tm ctxC pick cfgT req)
  | cancel taskID =>
    cases hf : fetch taskID s.tm.tasks with
    | none =>
      have he : (cancelTask s.tm taskID).2 = { s.tm with clock := s.tm.clock + 1 } := by
        simp [cancelTask, hf]
      rw [show ({ s with tm := (cancelTask s.tm taskID).2 } : SysState).tm.workers
            = (cancelTask s.tm taskID).2.workers from rfl, he]
    | some st =>
      by_cases hterm : isTerminalCheck st.status = true
      · have he : (cancelTask s.tm taskID).2 = { s.tm with clock := s.tm.clock + 1 } := by
          simp [cancelTask, hf, hterm]
        rw [show ({ s with tm := (cancelTask s.tm taskID).2 } : SysState).tm.workers
              = (cancelTask s.tm taskID).2.workers from rfl, he]
      · have he : (cancelTask s.tm taskID).2.workers =
            s.tm.workers.map (fun w =>
              if w.currentTaskId = some taskID then { w with ctxCancelled := true }
              else w) := by
          simp [cancelTask, hf, hterm]
        rw [show ({ s with tm := (cancelTask s.tm taskID).2 } : SysState).tm.workers
              = (cancelTask s.tm taskID).2.workers from rfl, he]
        exact List.length_map _ _
  | wstart i w hw hex hph =>
    have hwg : s.tm.workers[i]? = some w := by simpa using hw
    cases hqe : s.tm.queue with
    | nil => rw [show workerStart s i = s from by simp [workerStart, hqe]]
    | cons req rest =>
      cases hfq : fetch req.id s.tm.tasks with
      | none =>
        have he : (workerStart s i).tm.workers = s.tm.workers := by
          simp [workerStart, hqe, hwg, hfq]
        rw [he]
      | some st =>
        by_cases hcs : st.status = "cancelled"
        · have he : (workerStart s i).tm.workers = s.tm.workers := by
            simp [workerStart, hqe, hwg, hfq, hcs]
          rw [he]
        · have he : (workerStart s i).tm.workers =
              s.tm.workers.set i { w with phase := .executing req } := by
            simp [workerStart, hqe, hwg, hfq, hcs]
          rw [he]
          exact List.length_set _ _ _
  | wfinish i w req hw hex hph pathOk convOk wslPath isGit opOk branchRes claudeOk
      delRmOk removeOk baseDir =>
    have hwg : s.tm.workers[i]? = some w := by simpa using hw
    have he : (workerFinish s i pathOk convOk wslPath isGit opOk branchRes claudeOk
        delRmOk removeOk baseDir).tm.workers =
        s.tm.workers.set i { w with phase := .looping } := by
      cases hf : fetch req.id s.tm.tasks <;>
        simp [workerFinish, hwg, hph, workerFinishTM, hf]
    rw [he]
    exact List.length_set _ _ _
  | wexit i w hw hex hph hc =>
    have hwg : s.tm.workers[i]? = some w := by simpa using hw
    have he : (workerExit s i).tm.workers =
        s.tm.workers.set i { w with exited := true } := by
      simp [workerExit, hwg]
    rw [he]
    exact List.length_set _ _ _
  | reap => rfl
  | sweep removeOk => rfl

/-- The inductive invariant carried along any run suffix. -/
theorem stepsFrom_inv {s s' : SysState} (hi : Inv s) (hsf : StepsFrom s s') : Inv s' := by
  induction hsf with
  | refl => exact hi
  | tail s1 s2 h hs ih => exact inv_step ih hs

/-- Permanence along whole runs: a cancelled worker context stays cancelled
and an exited worker never changes. -/
theorem worker_mono {s s' : SysState} (hi : Inv s) (hsf : StepsFrom s s') (i : Nat)
    (w : Worker) (hw : s.tm.workers.get? i = some w) :
    ∃ w', s'.tm.workers.get? i = some w' ∧
      (w.ctxCancelled = true → w'.ctxCancelled = true) ∧ (w.exited = true → w' = w) := by
  induction hsf with
  | refl => exact ⟨w, hw, fun h => h, fun _ => rfl⟩
  | tail s1 s2 h hs ih =>
    obtain ⟨w1, hw1, hc1, he1⟩ := ih
    have hi1 : Inv s1 := stepsFrom_inv hi h
    have hlen : s2.tm.workers.length = s1.tm.workers.length := step_workers_length hs
    obtain ⟨hlt1, _⟩ := List.get?_eq_some.mp hw1
    cases hw2 : s2.tm.workers.get? i with
    | none =>
      have hge := List.get?_eq_none.mp hw2
      rw [hlen] at hge
      exact absurd hlt1 (Nat.not_lt.mpr hge)
    | some w2 =>
      obtain ⟨hc2, he2⟩ := worker_mono_step hi1 hs i w1 w2 hw1 hw2
      refine ⟨w2, rfl, fun hc => hc2 (hc1 hc), fun hex => ?_⟩
      have hex1 : w1.exited = true := by rw [he1 hex]; exact hex
      exact (he2 hex1).trans (he1 hex)

/-- C10 (amended): the scope CancelTask cancels for a running task is the
worker's run-loop context itself: (a) cancelling a non-terminal task sets the
`ctxCancelled` flag of every worker currently executing it — the very flag the
run loop's exit branch selects on; (b) along any subsequent run the flag never
resets, and an exited worker never changes again (in particular it never
dequeues or executes anything); (c) once cancelled and back in its loop, the
worker's exit transition is enabled and marks it permanently exited.  The
worker may still race the queue against ctx.Done while queued work remains
(see the counterexample), but each such cancellation permanently shrinks the
live pool once the exit fires. -/
theorem C10_amended_cancel_scope {s : SysState} (hr : Reachable s) :
    (∀ t st, fetch t s.tm.tasks = some st → isTerminalCheck st.status = false →
       ∀ i w, s.tm.workers.get? i = some w → w.currentTaskId = some t →
       ∃ w', (cancelTask s.tm t).2.workers.get? i = some w' ∧
         w'.ctxCancelled = true ∧ w'.phase = w.phase) ∧
    (∀ s', StepsFrom s s' → ∀ i w, s.tm.workers.get? i = some w →
       ∃ w', s'.tm.workers.get? i = some w' ∧
         (w.ctxCancelled = true → w'.ctxCancelled = true) ∧
         (w.exited = true → w' = w)) ∧
    (∀ i w, s.tm.workers.get? i = some w → w.exited = false → w.phase = .looping →
       w.ctxCancelled = true →
       Step s (workerExit s i) ∧
       ∃ w'', (workerExit s i).tm.workers.get? i = some w'' ∧ w''.exited = true ∧
         w''.ctxCancelled = true) := by
  have hi := reachable_inv hr
  refine ⟨?_, ?_, ?_⟩
  · intro t st hf hterm i w hw hcur
    have hterm' : ¬ isTerminalCheck st.status = true := by simp [hterm]
    have he : (cancelTask s.tm t).2.workers =
        s.tm.workers.map (fun w =>
          if w.currentTaskId = some t then { w with ctxCancelled := true } else w) := by
      simp [cancelTask, hf, hterm']
    rw [he, List.get?_map, hw]
    refine ⟨_, rfl, ?_, ?_⟩ <;> simp [hcur]
  · intro s' hsf i w hw
    exact worker_mono hi hsf i w hw
  · intro i w hw hex hph hc
    obtain ⟨hlt, _⟩ := List.get?_eq_some.mp hw
    have hwg : s.tm.workers[i]? = some w := by simpa using hw
    have he : (workerExit s i).tm.workers =
        s.tm.workers.set i { w with exited := true } := by
      simp [workerExit, hwg]
    refine ⟨Step.wexit s i w hw hex hph hc, ?_⟩
    rw [he]
    exact ⟨_, List.get?_set_eq_of_lt _ hlt, rfl, hc⟩

/-- Witness for C10 (amended): in run D, CancelTask on the running t1 cancels
worker 0's run-loop context. -/
theorem C10_amended_cancel_scope_witness :
    ∃ w', (cancelTask sD3.tm "t1").2.workers.get? 0 = some w' ∧
      w'.ctxCancelled = true ∧
      w'.phase = WorkerPhase.executing { reqT1 with timeout := thirtyMinutes } :=
  (C10_amended_cancel_scope reach_sD3).1 "t1"
    { id := "t1", status := "running", progress := (1 : ℚ)/10, message := "任务正在执行",
      startTime := 3 }
    (by rfl) (by decide) 0
    { wid := 0, ctxCancelled := false,
      phase := .executing { reqT1 with timeout := thirtyMinutes }, exited := false }
    (by decide) (by decide)

end ACC
